import Mathlib

/-!
# mattbot: mention watcher, event extraction and replies

A shallow embedding of `whatsapp.go` (`listenForMentions`, `extractUserIdentifier`,
`respondWithError`, `respondWithSuccess`), `nlp.go` (`EventDetails`,
`parseEventDetails`) and the earlier variant of the same functions kept in `main.go`.

Texts are sequences of Unicode scalar values (the valid UTF-8 Go strings): the page
driver and the language-model client both hand their strings over after JSON
decoding.  Every structural character the code looks at (`@`, the JSON punctuation)
is a single ASCII code unit, so positions and slices agree with the byte-level ones.
A Go `error` is modelled by its message (`Option GoString`, `none` for `nil`).

`json.Unmarshal` is library code. Its model here follows `scanner.go` (which texts
are valid) and `decode.go` (what is stored) of `encoding/json`, for a target struct
whose fields are untagged exported strings: one pass reads the text into a value
tree, refusing what the scanner refuses, and the tree is then stored into the
struct. What lies outside the program (page driver, model client, event store) is a
`World`, one per pass of the polling loop; what the program does is a list of
`Event`s.
-/

set_option maxRecDepth 100000

namespace Mattbot

/-- Text of a Go `string`. -/
abbrev GoString := List Char

/-! ## `strings.Index`, `strings.Contains` -/

/-- Search loop of `strings.Index`: `k` is the number of characters already passed. -/
def indexFrom (substr : GoString) : GoString → Nat → Int
  | [], k => if substr = [] then (k : Int) else -1
  | c :: cs, k => if substr.isPrefixOf (c :: cs) then (k : Int) else indexFrom substr cs (k + 1)

/-- Go `strings.Index(s, substr)`: position of the first instance of `substr` in `s`,
or `-1` when there is none. -/
def Index (s substr : GoString) : Int := indexFrom substr s 0

/-- Go `strings.Contains(s, substr)`, which is `Index(s, substr) >= 0`. -/
def Contains (s substr : GoString) : Bool := decide (Index s substr ≥ 0)

/-- Go slice expression `s[i:]` for an index within bounds. -/
def sliceFrom (s : GoString) (i : Int) : GoString := s.drop i.toNat

/-! ## `encoding/json` as used by `json.Unmarshal(data, &eventDetails)` -/

/-- A decoded JSON value. Numbers keep their source text. -/
inductive JSON where
  | null : JSON
  | bool (b : Bool) : JSON
  | num (raw : GoString) : JSON
  | str (s : GoString) : JSON
  | arr (elems : List JSON) : JSON
  | obj (members : List (GoString × JSON)) : JSON

/-- Why reading a value stopped without one. `fuel` is never observed by
`parseJSON` (see `parseJSON_ne_fuel`). -/
inductive Fail where
  | invalid : Fail
  | fuel : Fail
  deriving DecidableEq

/-- The scanner's `maxNestingDepth`. -/
def maxNestingDepth : Nat := 10000

/-- The scanner's `isSpace`. -/
def isSpace (c : Char) : Bool := c == ' ' || c == '\t' || c == '\r' || c == '\n'

/-- Skip JSON white space. -/
def skipSpace : GoString → GoString
  | [] => []
  | c :: cs => if isSpace c then skipSpace cs else c :: cs

/-- Value of one hexadecimal digit. -/
def hexVal (c : Char) : Option Nat :=
  if '0' ≤ c ∧ c ≤ '9' then some (c.toNat - '0'.toNat)
  else if 'a' ≤ c ∧ c ≤ 'f' then some (c.toNat - 'a'.toNat + 10)
  else if 'A' ≤ c ∧ c ≤ 'F' then some (c.toNat - 'A'.toNat + 10)
  else none

/-- Value of four hexadecimal digits, the `XXXX` of a `\uXXXX` escape. -/
def hex4 (a b c d : Char) : Option Nat :=
  match hexVal a, hexVal b, hexVal c, hexVal d with
  | some x, some y, some z, some w => some (((x * 16 + y) * 16 + z) * 16 + w)
  | _, _, _, _ => none

/-- The decoder's `getu4`: the code unit of a `\uXXXX` at the head of the text. -/
def getu4 : GoString → Option Nat
  | '\\' :: 'u' :: a :: b :: c :: d :: _ => hex4 a b c d
  | _ => none

/-- Unicode replacement character, `unicode.ReplacementChar`. -/
def replacementChar : Char := Char.ofNat 0xFFFD

/-- Go `utf16.IsSurrogate`. -/
def isSurrogate (r : Nat) : Bool := decide (0xD800 ≤ r ∧ r < 0xE000)

/-- Go `utf16.DecodeRune`: the code point of a surrogate pair, or the replacement
character when the two units are not a valid pair. -/
def decodeSurrogates (r1 r2 : Nat) : Char :=
  if 0xD800 ≤ r1 ∧ r1 < 0xDC00 ∧ 0xDC00 ≤ r2 ∧ r2 < 0xE000 then
    Char.ofNat ((r1 - 0xD800) * 1024 + (r2 - 0xDC00) + 0x10000)
  else replacementChar

/-- The character a one-letter escape stands for (`getu4` handles `u`). -/
def simpleEscape (c : Char) : Option Char :=
  if c = '"' then some '"'
  else if c = '\\' then some '\\'
  else if c = '/' then some '/'
  else if c = 'b' then some (Char.ofNat 8)
  else if c = 'f' then some (Char.ofNat 12)
  else if c = 'n' then some '\n'
  else if c = 'r' then some '\r'
  else if c = 't' then some '\t'
  else none

/-- Body of a JSON string, read after its opening quote: the decoded text and what
follows the closing quote. The scanner's rules (`stateInString` and the escape
states) decide what is accepted, the decoder's `unquote` what the text is.
`skip` counts characters of an escape already decoded that are still to be passed
over (`r += 6` in `unquote`). -/
def parseStringAux : Nat → GoString → Option (GoString × GoString)
  | _, [] => none
  | skip + 1, _ :: cs => parseStringAux skip cs
  | 0, c :: cs =>
    if c = '"' then some ([], cs)
    else if c = '\\' then
      match cs with
      | [] => none
      | e :: _ =>
        if e = 'u' then
          match getu4 (c :: cs) with
          | none => none
          | some rr =>
            if isSurrogate rr then
              match getu4 (cs.drop 5) with
              | some rr1 =>
                if decodeSurrogates rr rr1 ≠ replacementChar then
                  (parseStringAux 11 cs).map (fun p => (decodeSurrogates rr rr1 :: p.1, p.2))
                else
                  (parseStringAux 5 cs).map (fun p => (replacementChar :: p.1, p.2))
              | none => (parseStringAux 5 cs).map (fun p => (replacementChar :: p.1, p.2))
            else
              (parseStringAux 5 cs).map (fun p => (Char.ofNat rr :: p.1, p.2))
        else
          match simpleEscape e with
          | none => none
          | some x => (parseStringAux 1 cs).map (fun p => (x :: p.1, p.2))
    else if c.toNat < 0x20 then none
    else (parseStringAux 0 cs).map (fun p => (c :: p.1, p.2))

/-- A JSON string after its opening quote. -/
def parseString (s : GoString) : Option (GoString × GoString) := parseStringAux 0 s

/-- A decimal digit. -/
def isDigit (c : Char) : Bool := decide ('0' ≤ c ∧ c ≤ '9')

/-- Exponent part of a number (scanner states `stateE`, `stateESign`, `stateE0`):
what follows the number. -/
def scanExp (s : GoString) : Option GoString :=
  match s with
  | [] => some s
  | c :: cs =>
    if c = 'e' ∨ c = 'E' then
      let t := match cs with
        | [] => cs
        | x :: xs => if x = '+' ∨ x = '-' then xs else cs
      if (t.takeWhile isDigit) = [] then none else some (t.dropWhile isDigit)
    else some s

/-- Fraction part of a number (scanner states `stateDot`, `stateDot0`). -/
def scanFrac (s : GoString) : Option GoString :=
  match s with
  | [] => some s
  | c :: cs =>
    if c = '.' then
      if (cs.takeWhile isDigit) = [] then none else scanExp (cs.dropWhile isDigit)
    else scanExp s

/-- Integer part after the optional sign (scanner states `stateNeg`, `state0`, `state1`). -/
def scanInt (s : GoString) : Option GoString :=
  match s with
  | [] => none
  | c :: cs =>
    if c = '0' then scanFrac cs
    else if '1' ≤ c ∧ c ≤ '9' then scanFrac (cs.dropWhile isDigit)
    else none

/-- A JSON number at the head of the text: what follows it. -/
def scanNumber (s : GoString) : Option GoString :=
  match s with
  | [] => none
  | c :: cs => if c = '-' then scanInt cs else scanInt s

/-- Result of reading one syntactic unit: the unit and the unread text. -/
abbrev Parsed (α : Type) := Except Fail (α × GoString)

mutual
/-- One JSON value at the head of the text (white space before it already
skipped), `depth` containers being open around it. -/
def parseValue : Nat → Nat → GoString → Parsed JSON
  | 0, _, _ => .error .fuel
  | fuel + 1, depth, s =>
    match s with
    | [] => .error .invalid
    | c :: cs =>
      if c = '{' then
        if depth + 1 > maxNestingDepth then .error .invalid
        else
          match skipSpace cs with
          | [] => .error .invalid
          | x :: xs =>
            if x = '}' then .ok (.obj [], xs)
            else
              match parseMembers fuel (depth + 1) (x :: xs) with
              | .ok (ms, rest) => .ok (.obj ms, rest)
              | .error e => .error e
      else if c = '[' then
        if depth + 1 > maxNestingDepth then .error .invalid
        else
          match skipSpace cs with
          | [] => .error .invalid
          | x :: xs =>
            if x = ']' then .ok (.arr [], xs)
            else
              match parseElements fuel (depth + 1) (x :: xs) with
              | .ok (vs, rest) => .ok (.arr vs, rest)
              | .error e => .error e
      else if c = '"' then
        match parseString cs with
        | some (str, rest) => .ok (.str str, rest)
        | none => .error .invalid
      else if "true".toList.isPrefixOf s then .ok (.bool true, s.drop 4)
      else if "false".toList.isPrefixOf s then .ok (.bool false, s.drop 5)
      else if "null".toList.isPrefixOf s then .ok (.null, s.drop 4)
      else
        match scanNumber s with
        | some rest => .ok (.num (s.take (s.length - rest.length)), rest)
        | none => .error .invalid
/-- Members of an object from its first key (white space skipped) up to and
including the closing brace. -/
def parseMembers : Nat → Nat → GoString → Parsed (List (GoString × JSON))
  | 0, _, _ => .error .fuel
  | fuel + 1, depth, s =>
    match s with
    | [] => .error .invalid
    | c :: cs =>
      if c = '"' then
        match parseString cs with
        | none => .error .invalid
        | some (key, rest) =>
          match skipSpace rest with
          | [] => .error .invalid
          | x :: xs =>
            if x = ':' then
              match parseValue fuel depth (skipSpace xs) with
              | .error e => .error e
              | .ok (v, rest2) =>
                match skipSpace rest2 with
                | [] => .error .invalid
                | y :: ys =>
                  if y = ',' then
                    match parseMembers fuel depth (skipSpace ys) with
                    | .ok (ms, rest3) => .ok ((key, v) :: ms, rest3)
                    | .error e => .error e
                  else if y = '}' then .ok ([(key, v)], ys)
                  else .error .invalid
            else .error .invalid
      else .error .invalid
/-- Elements of an array from its first element (white space skipped) up to and
including the closing bracket. -/
def parseElements : Nat → Nat → GoString → Parsed (List JSON)
  | 0, _, _ => .error .fuel
  | fuel + 1, depth, s =>
    match parseValue fuel depth s with
    | .error e => .error e
    | .ok (v, rest) =>
      match skipSpace rest with
      | [] => .error .invalid
      | y :: ys =>
        if y = ',' then
          match parseElements fuel depth (skipSpace ys) with
          | .ok (vs, rest2) => .ok (v :: vs, rest2)
          | .error e => .error e
        else if y = ']' then .ok ([v], ys)
        else .error .invalid
end

/-- A whole JSON text: one value between optional white space, as the scanner's
`checkValid` accepts it, decoded. The fuel is enough for every text
(`parseJSON_ne_fuel`). -/
def parseJSON (data : GoString) : Except Fail JSON :=
  match parseValue (2 * data.length + 1) 0 (skipSpace data) with
  | .error e => .error e
  | .ok (v, rest) => if skipSpace rest = [] then .ok v else .error .invalid

/-- The two failures of `json.Unmarshal`: `*json.SyntaxError` and
`*json.UnmarshalTypeError` (with the JSON kind met and the struct field, if any). -/
inductive JsonError where
  | syntaxError : JsonError
  | unmarshalType (value : GoString) (field : Option GoString) : JsonError
  deriving DecidableEq

/-- The decoder's `foldRune` on one character: ASCII letters go to upper case, and
the two non-ASCII characters whose folding orbit holds an ASCII letter go to it.
Any other character is sent by the library to the least member of its orbit, again
a non-ASCII one; the identity stands for that here, field names being ASCII. -/
def foldRune (c : Char) : Char :=
  if 'a' ≤ c ∧ c ≤ 'z' then Char.ofNat (c.toNat - 32)
  else if c = Char.ofNat 0x17F then 'S'
  else if c = Char.ofNat 0x212A then 'K'
  else c

/-- The decoder's `foldName`. -/
def foldName (s : GoString) : GoString := s.map foldRune

/-- Field lookup of the decoder's `object`: a field named exactly as the key, else
the first one equal to it under case folding. -/
def findField (names : List GoString) (key : GoString) : Option Nat :=
  match names.findIdx? (fun n => n == key) with
  | some i => some i
  | none => names.findIdx? (fun n => foldName n == foldName key)

/-- What reflection knows of a struct all of whose fields are exported untagged
strings: the field names in order and how field `i` is assigned. -/
structure StructType (σ : Type) where
  names : List GoString
  set : σ → Nat → GoString → σ

/-- The decoder's `saveError`: only the first error is kept. -/
def saveError (saved : Option JsonError) (e : JsonError) : Option JsonError :=
  match saved with
  | some old => some old
  | none => some e

/-- The `Value` an `UnmarshalTypeError` reports for a JSON value. -/
def kindName : JSON → GoString
  | .null => "null".toList
  | .bool _ => "bool".toList
  | .num _ => "number".toList
  | .str _ => "string".toList
  | .arr _ => "array".toList
  | .obj _ => "object".toList

/-- One `key: value` pair of the top-level object stored into the struct: an unknown
key is skipped, a string is assigned, `null` leaves the field as it is, any other
value is a type error (saved, decoding goes on). -/
def storeMember {σ : Type} (ty : StructType σ) (st : σ × Option JsonError)
    (m : GoString × JSON) : σ × Option JsonError :=
  match findField ty.names m.1 with
  | none => st
  | some i =>
    match m.2 with
    | .str s => (ty.set st.1 i s, st.2)
    | .null => st
    | v => (st.1, saveError st.2 (.unmarshalType (kindName v) (ty.names.get? i)))

/-- Go `json.Unmarshal(data, &v)` for such a struct: the value of `v` afterwards and
the error returned. Invalid text is refused before anything is stored; a top-level
`null` stores nothing; any other value that is not an object is a type error. -/
def Unmarshal {σ : Type} (ty : StructType σ) (data : GoString) (v : σ) :
    σ × Option JsonError :=
  match parseJSON data with
  | .error _ => (v, some .syntaxError)
  | .ok (.obj members) => members.foldl (storeMember ty) (v, none)
  | .ok .null => (v, none)
  | .ok j => (v, some (.unmarshalType (kindName j) none))

/-! ## The page driver, the model client and the store -/

/-- The `chromedp` actions the program builds. -/
inductive Action where
  | Text (sel : GoString) : Action
  | SendKeys (sel : GoString) (v : GoString) : Action
  | Click (sel : GoString) : Action
  deriving DecidableEq

/-- What lies outside the program during one pass of the polling loop: the answers
of the page driver, of the language-model client and of the event store, and the
wording of the JSON library's errors. -/
structure World (Ev : Type) where
  /-- Outcome of `chromedp.Run(ctx, chromedp.Text(...))`: the text read or the error. -/
  readText : Except GoString GoString
  /-- Outcome of `client.Messages.Create` for a key, token limit and prompt: the
  `Text` of the content blocks, or the error. -/
  messagesCreate : GoString → Nat → GoString → Except GoString (List GoString)
  /-- Method `Error()` of the JSON library's errors. -/
  jsonErrorString : JsonError → GoString
  /-- Outcome of `storeEvent(ctx, userIdentifier, eventDetails)`. -/
  storeEvent : GoString → Ev → Option GoString
  /-- Outcome of `chromedp.Run` on the actions of a reply. -/
  run : List Action → Option GoString

/-! ## `nlp.go` -/

/-- Go `struct EventDetails` of `nlp.go`. -/
structure EventDetails where
  Title : GoString := []
  Date : GoString := []
  Time : GoString := []
  Duration : GoString := []
  Recurrence : GoString := []
  deriving DecidableEq

/-- Reflection data of `EventDetails`. -/
def EventDetails.structType : StructType EventDetails where
  names := ["Title".toList, "Date".toList, "Time".toList, "Duration".toList,
    "Recurrence".toList]
  set := fun e i s =>
    match i with
    | 0 => { e with Title := s }
    | 1 => { e with Date := s }
    | 2 => { e with Time := s }
    | 3 => { e with Duration := s }
    | 4 => { e with Recurrence := s }
    | _ => e

/-- What the program does that can be seen from outside, in order, with the calls of
its own functions marked where they start. -/
inductive Event (Ev : Type) where
  | Sleep (seconds : Nat) : Event Ev
  | Run (actions : List Action) : Event Ev
  | MessagesCreate (apiKey : GoString) (maxTokens : Nat) (content : GoString) : Event Ev
  | Errorf (text : GoString) : Event Ev
  | Printf (text : GoString) : Event Ev
  | parseEventDetails (message apiKey : GoString) : Event Ev
  | storeEvent (userIdentifier : GoString) (eventDetails : Ev) : Event Ev
  | respondWithError (message : GoString) : Event Ev
  | respondWithSuccess (message : GoString) : Event Ev
  deriving DecidableEq

/-- The prompt of `parseEventDetails`, `fmt.Sprintf` of its raw string literal. -/
def prompt (message : GoString) : GoString :=
  "Extract the event title, date, time, duration, and recurrence from this text: ".toList
    ++ message
    ++ (". \nRespond in a JSON format like this: \n" ++
        "\x7b\"title\": \"event title\", \"date\": \"event date\", \"time\": \"event time\", " ++
        "\"duration\": \"event duration\", \"recurrence\": \"annually\"\x7d. \n" ++
        "The recurrence can be \"annually\" for birthdays or anniversaries, or \"none\" " ++
        "for single day events. If any information is missing, leave the field empty.").toList

/-- The `jsonResponse` of `parseEventDetails`: `resp.Content[0].Text` when there is
a content block, the empty text otherwise. -/
def firstText (content : List GoString) : GoString :=
  match content with
  | [] => []
  | text :: _ => text

/-- The text wrapped by `fmt.Errorf("failed to unmarshal JSON: %w, raw response: %s", ...)`. -/
def unmarshalFailure (err jsonResponse : GoString) : GoString :=
  "failed to unmarshal JSON: ".toList ++ err ++ ", raw response: ".toList ++ jsonResponse

/-- Go `parseEventDetails(message, claudeAPIKey)` of `nlp.go`: the record and the
error returned. -/
def parseEventDetails {Ev : Type} (w : World Ev) (message claudeAPIKey : GoString) :
    EventDetails × Option GoString :=
  match w.messagesCreate claudeAPIKey 250 (prompt message) with
  | .error err => ({}, some err)
  | .ok content =>
    let jsonResponse := firstText content
    match Unmarshal EventDetails.structType jsonResponse {} with
    | (_, some err) => ({}, some (unmarshalFailure (w.jsonErrorString err) jsonResponse))
    | (eventDetails, none) => (eventDetails, none)

/-- The events of a call of `parseEventDetails`: its start and its one request to
the model. -/
def parseEventDetailsTrace {Ev : Type} (message claudeAPIKey : GoString) : List (Event Ev) :=
  [.parseEventDetails message claudeAPIKey,
   .MessagesCreate claudeAPIKey 250 (prompt message)]

/-! ## `whatsapp.go` -/

/-- Selector of the latest message, read with `chromedp.Text`. -/
def messageSelector : GoString := "span[dir=\"auto\"]".toList

/-- Selector of the message input box. -/
def inputSelector : GoString := "div[title=\"Type a message\"]".toList

/-- Selector of the send button. -/
def sendSelector : GoString := "button[aria-label=\"Send\"]".toList

/-- Go `extractUserIdentifier(message)`. -/
def extractUserIdentifier (_message : GoString) : GoString := "user123".toList

/-- The two actions of a reply: type the text, click send. -/
def replyActions (message : GoString) : List Action :=
  [.SendKeys inputSelector message, .Click sendSelector]

/-- Go `respondWithError(ctx, message)`. -/
def respondWithError {Ev : Type} (w : World Ev) (message : GoString) : List (Event Ev) :=
  [.respondWithError message, .Run (replyActions message)] ++
    match w.run (replyActions message) with
    | some err => [.Errorf ("Failed to send error message: ".toList ++ err)]
    | none => []

/-- Go `respondWithSuccess(ctx, message)`. -/
def respondWithSuccess {Ev : Type} (w : World Ev) (message : GoString) : List (Event Ev) :=
  [.respondWithSuccess message, .Run (replyActions message)] ++
    match w.run (replyActions message) with
    | some err => [.Errorf ("Failed to send success message: ".toList ++ err)]
    | none => []

/-- How a pass of the loop body ends: on to the next pass (`continue`, or the end of
the body), or out of the function with its result. -/
inductive Control where
  | next : Control
  | exit (err : Option GoString) : Control
  deriving DecidableEq

/-- The reply of `listenForMentions` when `parseEventDetails` fails. -/
def notUnderstoodText : GoString :=
  ("Sorry, I couldn\x27t understand the event details. Please provide all information " ++
   "(title, date, time, duration, recurrence) in a clear format.").toList

/-- The reply of `listenForMentions` when a required detail is empty. -/
def missingDetailsText : GoString :=
  "Sorry, I need the event title, date, time, and duration to create the event.".toList

/-- The reply of `listenForMentions` when `storeEvent` fails. -/
def notStoredText : GoString :=
  "Sorry, I couldn\x27t store the event. Please try again.".toList

/-- The confirmation of `listenForMentions`, `fmt.Sprintf` of
`Okay, I've noted the event: %s on %s at %s for %s. Recurrence: %s`. -/
def successText (e : EventDetails) : GoString :=
  "Okay, I\x27ve noted the event: ".toList ++ e.Title ++ " on ".toList ++ e.Date ++
    " at ".toList ++ e.Time ++ " for ".toList ++ e.Duration ++
    ". Recurrence: ".toList ++ e.Recurrence

/-- The test `Title == "" || Date == "" || Time == "" || Duration == ""` of
`listenForMentions`. -/
def detailsMissing (e : EventDetails) : Bool :=
  e.Title == [] || e.Date == [] || e.Time == [] || e.Duration == []

/-- The five `fmt.Printf` lines of `listenForMentions`. -/
def printDetails {Ev : Type} (e : EventDetails) : List (Event Ev) :=
  [.Printf ("Event Title: ".toList ++ e.Title ++ "\n".toList),
   .Printf ("Event Date: ".toList ++ e.Date ++ "\n".toList),
   .Printf ("Event Time: ".toList ++ e.Time ++ "\n".toList),
   .Printf ("Event Duration: ".toList ++ e.Duration ++ "\n".toList),
   .Printf ("Event Recurrence: ".toList ++ e.Recurrence ++ "\n".toList)]

/-- The text `listenForMentions` hands to `parseEventDetails`:
`lastMessage[strings.Index(lastMessage, "@")+1:]`. -/
def messageContent (lastMessage : GoString) : GoString :=
  let mentionIndex := Index lastMessage "@".toList
  sliceFrom lastMessage (mentionIndex + 1)

/-- One pass of the `for` loop of `listenForMentions` in `whatsapp.go`: its events
and how it ends. -/
def loopBody (w : World EventDetails) (claudeAPIKey : GoString) :
    List (Event EventDetails) × Control :=
  let start : List (Event EventDetails) := [.Sleep 5, .Run [.Text messageSelector]]
  match w.readText with
  | .error err =>
    (start ++ [.Errorf ("Failed to retrieve last message: ".toList ++ err)], .next)
  | .ok lastMessage =>
    if Contains lastMessage "@".toList then
      let userIdentifier := extractUserIdentifier lastMessage
      let called := start ++ parseEventDetailsTrace (messageContent lastMessage) claudeAPIKey
      match parseEventDetails w (messageContent lastMessage) claudeAPIKey with
      | (_, some err) =>
        (called ++ [.Errorf ("Failed to parse event details: ".toList ++ err)] ++
          respondWithError w notUnderstoodText, .next)
      | (eventDetails, none) =>
        if detailsMissing eventDetails then
          (called ++ respondWithError w missingDetailsText, .next)
        else
          match w.storeEvent userIdentifier eventDetails with
          | some err =>
            (called ++ [.storeEvent userIdentifier eventDetails,
              .Errorf ("Failed to store event in Redis: ".toList ++ err)] ++
              respondWithError w notStoredText, .next)
          | none =>
            (called ++ [.storeEvent userIdentifier eventDetails] ++ printDetails eventDetails ++
              respondWithSuccess w (successText eventDetails), .next)
    else (start, .next)

/-- Go `listenForMentions` of `whatsapp.go` over the passes whose surroundings are
given: the events so far, and `Control.next` while the loop is still running. -/
def listenForMentions (claudeAPIKey : GoString) :
    List (World EventDetails) → List (Event EventDetails) × Control
  | [] => ([], .next)
  | w :: ws =>
    match loopBody w claudeAPIKey with
    | (events, .next) =>
      let later := listenForMentions claudeAPIKey ws
      (events ++ later.1, later.2)
    | (events, .exit err) => (events, .exit err)

/-! ## `main.go`: the earlier variant, without recurrence and without the store -/

namespace MainGo

/-- Go `struct EventDetails` of `main.go`. -/
structure EventDetails where
  Title : GoString := []
  Date : GoString := []
  Time : GoString := []
  Duration : GoString := []
  deriving DecidableEq

/-- Reflection data of `EventDetails`. -/
def EventDetails.structType : StructType EventDetails where
  names := ["Title".toList, "Date".toList, "Time".toList, "Duration".toList]
  set := fun e i s =>
    match i with
    | 0 => { e with Title := s }
    | 1 => { e with Date := s }
    | 2 => { e with Time := s }
    | 3 => { e with Duration := s }
    | _ => e

/-- The prompt of `parseEventDetails`. -/
def prompt (message : GoString) : GoString :=
  "Extract the event title, date, time, and duration from this text: ".toList
    ++ message
    ++ (". Respond in a JSON format like this: " ++
        "\x7b\"title\": \"event title\", \"date\": \"event date\", \"time\": \"event time\", " ++
        "\"duration\": \"event duration\"\x7d. " ++
        "If any information is missing, leave the field empty.").toList

/-- Go `parseEventDetails(message, claudeAPIKey)` of `main.go`. -/
def parseEventDetails (w : World EventDetails) (message claudeAPIKey : GoString) :
    EventDetails × Option GoString :=
  match w.messagesCreate claudeAPIKey 200 (prompt message) with
  | .error err => ({}, some err)
  | .ok content =>
    let jsonResponse := firstText content
    match Unmarshal EventDetails.structType jsonResponse {} with
    | (_, some err) => ({}, some (unmarshalFailure (w.jsonErrorString err) jsonResponse))
    | (eventDetails, none) => (eventDetails, none)

/-- The events of a call of `parseEventDetails`. -/
def parseEventDetailsTrace (message claudeAPIKey : GoString) : List (Event EventDetails) :=
  [.parseEventDetails message claudeAPIKey,
   .MessagesCreate claudeAPIKey 200 (prompt message)]

/-- The reply when `parseEventDetails` fails. -/
def notUnderstoodText : GoString :=
  ("Sorry, I couldn\x27t understand the event details. Please provide all information " ++
   "(title, date, time, duration) in a clear format.").toList

/-- The confirmation, `fmt.Sprintf` of `Okay, I've noted the event: %s on %s at %s for %s.` -/
def successText (e : EventDetails) : GoString :=
  "Okay, I\x27ve noted the event: ".toList ++ e.Title ++ " on ".toList ++ e.Date ++
    " at ".toList ++ e.Time ++ " for ".toList ++ e.Duration ++ ".".toList

/-- The test for an empty required detail. -/
def detailsMissing (e : EventDetails) : Bool :=
  e.Title == [] || e.Date == [] || e.Time == [] || e.Duration == []

/-- The four `fmt.Printf` lines. -/
def printDetails (e : EventDetails) : List (Event EventDetails) :=
  [.Printf ("Event Title: ".toList ++ e.Title ++ "\n".toList),
   .Printf ("Event Date: ".toList ++ e.Date ++ "\n".toList),
   .Printf ("Event Time: ".toList ++ e.Time ++ "\n".toList),
   .Printf ("Event Duration: ".toList ++ e.Duration ++ "\n".toList)]

/-- One pass of the `for` loop of `listenForMentions` in `main.go`. -/
def loopBody (w : World EventDetails) (claudeAPIKey : GoString) :
    List (Event EventDetails) × Control :=
  let start : List (Event EventDetails) := [.Sleep 5, .Run [.Text messageSelector]]
  match w.readText with
  | .error err =>
    (start ++ [.Errorf ("Failed to retrieve last message: ".toList ++ err)], .next)
  | .ok lastMessage =>
    if Contains lastMessage "@".toList then
      let called := start ++ parseEventDetailsTrace (messageContent lastMessage) claudeAPIKey
      match parseEventDetails w (messageContent lastMessage) claudeAPIKey with
      | (_, some err) =>
        (called ++ [.Errorf ("Failed to parse event details: ".toList ++ err)] ++
          respondWithError w notUnderstoodText, .next)
      | (eventDetails, none) =>
        if detailsMissing eventDetails then
          (called ++ respondWithError w missingDetailsText, .next)
        else
          (called ++ printDetails eventDetails ++
            respondWithSuccess w (successText eventDetails), .next)
    else (start, .next)

/-- Go `listenForMentions` of `main.go` over the given passes. -/
def listenForMentions (claudeAPIKey : GoString) :
    List (World EventDetails) → List (Event EventDetails) × Control
  | [] => ([], .next)
  | w :: ws =>
    match loopBody w claudeAPIKey with
    | (events, .next) =>
      let later := listenForMentions claudeAPIKey ws
      (events ++ later.1, later.2)
    | (events, .exit err) => (events, .exit err)

end MainGo

/-! ## Observations on a trace -/

/-- The start of a reply: a call of `respondWithError` or `respondWithSuccess`. -/
def Event.isReply {Ev : Type} : Event Ev → Bool
  | .respondWithError _ => true
  | .respondWithSuccess _ => true
  | _ => false

/-- A page-driver run that types into the chat: the action list of a reply. -/
def Event.isTyping {Ev : Type} : Event Ev → Bool
  | .Run (.SendKeys _ _ :: _) => true
  | _ => false

/-- The start of a call of `parseEventDetails`. -/
def Event.isParseCall {Ev : Type} : Event Ev → Bool
  | .parseEventDetails _ _ => true
  | _ => false

/-- A request to the language model. -/
def Event.isModelCall {Ev : Type} : Event Ev → Bool
  | .MessagesCreate _ _ _ => true
  | _ => false

/-- A call of `storeEvent`. -/
def Event.isStore {Ev : Type} : Event Ev → Bool
  | .storeEvent _ _ => true
  | _ => false

/-! ## Worlds used as concrete inputs -/

/-- A pass in which the page shows `text`, the model answers with the one content
block `response`, the store answers `stored` and the page driver accepts the reply. -/
def worldOf (text response : String) (stored : Option GoString) : World EventDetails where
  readText := .ok text.toList
  messagesCreate := fun _ _ _ => .ok [response.toList]
  jsonErrorString := fun _ => "invalid".toList
  storeEvent := fun _ _ => stored
  run := fun _ => none

/-- A pass in which reading the page fails. -/
def worldReadFails : World EventDetails where
  readText := .error "context deadline exceeded".toList
  messagesCreate := fun _ _ _ => .ok []
  jsonErrorString := fun _ => "invalid".toList
  storeEvent := fun _ _ => none
  run := fun _ => none

/-- The model response of the round-trip example. -/
def samResponse : String :=
  "\x7b\"title\":\"Sam\x27s Birthday\",\"date\":\"2025-03-01\",\"time\":\"14:00\"," ++
  "\"duration\":\"1h\",\"recurrence\":\"annually\"\x7d"

/-- The record of the round-trip example. -/
def samEvent : EventDetails where
  Title := "Sam\x27s Birthday".toList
  Date := "2025-03-01".toList
  Time := "14:00".toList
  Duration := "1h".toList
  Recurrence := "annually".toList

/-- A pass of the `main.go` variant: the page shows `text`, the model answers with
the one content block `response`, the page driver accepts the reply. -/
def MainGo.worldOf (text response : String) : World MainGo.EventDetails where
  readText := .ok text.toList
  messagesCreate := fun _ _ _ => .ok [response.toList]
  jsonErrorString := fun _ => "invalid".toList
  storeEvent := fun _ _ => none
  run := fun _ => none

/-- An API key for the concrete inputs. -/
def someKey : GoString := "sk-test".toList

/-- A model response whose record lacks the date. -/
def noDateResponse : String :=
  "\x7b\"title\":\"Lunch\",\"date\":\"\",\"time\":\"12:00\",\"duration\":\"1h\"," ++
  "\"recurrence\":\"none\"\x7d"

/-- The record of `noDateResponse`. -/
def noDateEvent : EventDetails where
  Title := "Lunch".toList
  Date := []
  Time := "12:00".toList
  Duration := "1h".toList
  Recurrence := "none".toList

/-- Go `json.Unmarshal([]byte(text), &eventDetails)` on a zero `EventDetails`. -/
def decodeText (text : String) : EventDetails × Option JsonError :=
  Unmarshal EventDetails.structType text.toList {}

/-! ## Which texts `json.Unmarshal` accepts -/

/-- Go `json.Valid(data)`: the text is one well-formed JSON value. -/
def Valid (data : GoString) : Bool :=
  match parseJSON data with
  | .ok _ => true
  | .error _ => false

/-- A member of the top-level object that cannot be stored: its key names a field
of the struct and its value is neither a string nor `null`. -/
def mismatched {σ : Type} (ty : StructType σ) (m : GoString × JSON) : Bool :=
  match findField ty.names m.1 with
  | none => false
  | some _ =>
    match m.2 with
    | .str _ => false
    | .null => false
    | _ => true

/-- The texts that are not, for the struct, an object or `null` with string or
`null` under every key naming a field: text that is not well-formed JSON, a
top-level value of another kind, an object with a mismatched member. -/
def refused {σ : Type} (ty : StructType σ) (data : GoString) : Bool :=
  match parseJSON data with
  | .error _ => true
  | .ok (.obj members) => members.any (mismatched ty)
  | .ok .null => false
  | .ok _ => true

/-! ## The JSON grammar of RFC 8259, to say what well-formed means -/

/-- Grammar `ws`: any run of space, tab, line feed, carriage return. -/
def IsWs (s : GoString) : Prop := ∀ c ∈ s, c = ' ' ∨ c = '\t' ∨ c = '\n' ∨ c = '\r'

/-- Grammar `HEXDIG`. -/
def IsHexDigit (c : Char) : Prop :=
  ('0' ≤ c ∧ c ≤ '9') ∨ ('a' ≤ c ∧ c ≤ 'f') ∨ ('A' ≤ c ∧ c ≤ 'F')

/-- Grammar `*char`, what stands between the quotation marks of a string: unescaped
characters from U+0020 on other than the quotation mark and the backslash, the
two-character escapes, and `\u` with four hexadecimal digits. -/
inductive IsChars : GoString → Prop where
  | nil : IsChars []
  | unescaped (c : Char) (s : GoString) :
      c ≠ '"' → c ≠ '\\' → 0x20 ≤ c.toNat → IsChars s → IsChars (c :: s)
  | escaped (e : Char) (s : GoString) :
      (e = '"' ∨ e = '\\' ∨ e = '/' ∨ e = 'b' ∨ e = 'f' ∨ e = 'n' ∨ e = 'r' ∨ e = 't') →
      IsChars s → IsChars ('\\' :: e :: s)
  | unicode (a b c d : Char) (s : GoString) :
      IsHexDigit a → IsHexDigit b → IsHexDigit c → IsHexDigit d → IsChars s →
      IsChars ('\\' :: 'u' :: a :: b :: c :: d :: s)

/-- Grammar `*DIGIT`. -/
def IsDigits (s : GoString) : Prop := ∀ c ∈ s, '0' ≤ c ∧ c ≤ '9'

/-- Grammar `int = zero / ( digit1-9 *DIGIT )`. -/
def IsInt (s : GoString) : Prop :=
  s = ['0'] ∨ ∃ c ds, s = c :: ds ∧ '1' ≤ c ∧ c ≤ '9' ∧ IsDigits ds

/-- Grammar `[ frac ]`, `frac = decimal-point 1*DIGIT`. -/
def IsOptFrac (s : GoString) : Prop :=
  s = [] ∨ ∃ ds, s = '.' :: ds ∧ ds ≠ [] ∧ IsDigits ds

/-- Grammar `[ exp ]`, `exp = e [ minus / plus ] 1*DIGIT`. -/
def IsOptExp (s : GoString) : Prop :=
  s = [] ∨ ∃ e sign ds, s = e :: (sign ++ ds) ∧ (e = 'e' ∨ e = 'E') ∧
    (sign = [] ∨ sign = ['+'] ∨ sign = ['-']) ∧ ds ≠ [] ∧ IsDigits ds

/-- Grammar `number = [ minus ] int [ frac ] [ exp ]`. -/
def IsNumber (s : GoString) : Prop :=
  ∃ sign int frac exp, s = sign ++ (int ++ (frac ++ exp)) ∧ (sign = [] ∨ sign = ['-']) ∧
    IsInt int ∧ IsOptFrac frac ∧ IsOptExp exp

mutual
/-- Grammar `value`. -/
inductive IsValue : GoString → Prop where
  | null : IsValue ['n', 'u', 'l', 'l']
  | true : IsValue ['t', 'r', 'u', 'e']
  | false : IsValue ['f', 'a', 'l', 's', 'e']
  | number (s : GoString) : IsNumber s → IsValue s
  | string (s : GoString) : IsChars s → IsValue ('"' :: (s ++ ['"']))
  | emptyObject (ws : GoString) : IsWs ws → IsValue ('{' :: (ws ++ ['}']))
  | object (ws ms : GoString) : IsWs ws → IsMembers ms → IsValue ('{' :: (ws ++ (ms ++ ['}'])))
  | emptyArray (ws : GoString) : IsWs ws → IsValue ('[' :: (ws ++ [']']))
  | array (ws es : GoString) : IsWs ws → IsElements es → IsValue ('[' :: (ws ++ (es ++ [']'])))
/-- Grammar `member *( value-separator member )`, the white space before the closing
brace included. -/
inductive IsMembers : GoString → Prop where
  | last (k w1 w2 v w3 : GoString) :
      IsChars k → IsWs w1 → IsWs w2 → IsValue v → IsWs w3 →
      IsMembers ('"' :: (k ++ ('"' :: (w1 ++ (':' :: (w2 ++ (v ++ w3)))))))
  | more (k w1 w2 v w3 w4 ms : GoString) :
      IsChars k → IsWs w1 → IsWs w2 → IsValue v → IsWs w3 → IsWs w4 → IsMembers ms →
      IsMembers ('"' :: (k ++ ('"' :: (w1 ++ (':' :: (w2 ++ (v ++ (w3 ++ (',' ::
        (w4 ++ ms))))))))))
/-- Grammar `value *( value-separator value )`, the white space before the closing
bracket included. -/
inductive IsElements : GoString → Prop where
  | last (v w : GoString) : IsValue v → IsWs w → IsElements (v ++ w)
  | more (v w w2 es : GoString) :
      IsValue v → IsWs w → IsWs w2 → IsElements es →
      IsElements (v ++ (w ++ (',' :: (w2 ++ es))))
end

/-- Grammar `JSON-text = ws value ws`. -/
def IsJSONText (s : GoString) : Prop :=
  ∃ w1 v w2, s = w1 ++ (v ++ w2) ∧ IsWs w1 ∧ IsValue v ∧ IsWs w2

/-! ## JSON text of a record, for the round trip -/

/-- Lower-case hexadecimal digit of a value below sixteen. -/
def hexDigit (n : Nat) : Char :=
  if n < 10 then Char.ofNat (48 + n) else Char.ofNat (87 + n)

/-- One character of a string value as JSON text writes it: the quote and the
backslash behind a backslash, a control character as `\u00XX`, any other character
as it is. -/
def escapeChar (c : Char) : GoString :=
  if c = '"' then ['\\', '"']
  else if c = '\\' then ['\\', '\\']
  else if c.toNat < 0x20 then
    ['\\', 'u', '0', '0', hexDigit (c.toNat / 16), hexDigit (c.toNat % 16)]
  else [c]

/-- The characters of a string value as JSON text writes them. -/
def escape : GoString → GoString
  | [] => []
  | c :: cs => escapeChar c ++ escape cs

/-- The JSON text of a string value. -/
def quote (s : GoString) : GoString := '"' :: (escape s ++ ['"'])

/-- The JSON object `{"title":t,"date":d,"time":tm,"duration":du,"recurrence":r}`
with the five string values `t`, `d`, `tm`, `du`, `r`. -/
def eventJSON (t d tm du r : GoString) : GoString :=
  "\x7b\"title\":".toList ++ quote t ++ ",\"date\":".toList ++ quote d ++
    ",\"time\":".toList ++ quote tm ++ ",\"duration\":".toList ++ quote du ++
    ",\"recurrence\":".toList ++ quote r ++ "\x7d".toList

/-! ## Lemmas on `strings.Index` -/

theorem at_toList : "@".toList = [(Char.ofNat 64)] := by decide

theorem indexFrom_at_of_mem (s : GoString) :
    ∀ k : Nat, Char.ofNat 64 ∈ s →
      ∃ pre cand, s = pre ++ Char.ofNat 64 :: cand ∧ Char.ofNat 64 ∉ pre ∧
        indexFrom [Char.ofNat 64] s k = ((k + pre.length : Nat) : Int) := by
  induction s with
  | nil => intro k h; simp at h
  | cons c cs ih =>
    intro k h
    by_cases hc : c = Char.ofNat 64
    · refine ⟨[], cs, by simp [hc], by simp, ?_⟩
      simp [indexFrom, hc]
    · have hmem : Char.ofNat 64 ∈ cs := by
        rcases List.mem_cons.mp h with h1 | h1
        · exact absurd h1.symm hc
        · exact h1
      obtain ⟨pre, cand, hs, hpre, hidx⟩ := ih (k + 1) hmem
      refine ⟨c :: pre, cand, by simp [hs], ?_, ?_⟩
      · simp only [List.mem_cons, not_or]
        exact ⟨fun h2 => hc h2.symm, hpre⟩
      · have hne : ¬ (Char.ofNat 64 = c) := fun h2 => hc h2.symm
        simp only [indexFrom, List.isPrefixOf, Bool.and_true, beq_iff_eq, hne, if_false, hidx,
          List.length_cons]
        push_cast
        ring

theorem indexFrom_at_of_not_mem (s : GoString) :
    ∀ k : Nat, Char.ofNat 64 ∉ s → indexFrom [Char.ofNat 64] s k = -1 := by
  induction s with
  | nil => intro k _; simp [indexFrom]
  | cons c cs ih =>
    intro k h
    simp only [List.mem_cons, not_or] at h
    have hne : ¬ (Char.ofNat 64 = c) := h.1
    simp only [indexFrom, List.isPrefixOf, Bool.and_true, beq_iff_eq, hne, if_false]
    exact ih (k + 1) h.2

theorem contains_at_iff (s : GoString) : Contains s "@".toList = true ↔ Char.ofNat 64 ∈ s := by
  rw [at_toList]
  constructor
  · intro h
    by_contra hn
    have := indexFrom_at_of_not_mem s 0 hn
    simp [Contains, Index, this] at h
  · intro h
    obtain ⟨pre, cand, _, _, hidx⟩ := indexFrom_at_of_mem s 0 h
    simp only [Contains, Index, hidx, decide_eq_true_eq]
    positivity

theorem messageContent_split (s : GoString) (h : Char.ofNat 64 ∈ s) :
    ∃ pre, s = pre ++ Char.ofNat 64 :: messageContent s ∧ Char.ofNat 64 ∉ pre := by
  obtain ⟨pre, cand, hs, hpre, hidx⟩ := indexFrom_at_of_mem s 0 h
  refine ⟨pre, ?_, hpre⟩
  have hc : messageContent s = cand := by
    simp only [messageContent, at_toList, Index, hidx, sliceFrom]
    have : (((0 + pre.length : Nat) : Int) + 1).toNat = pre.length + 1 := by
      simp only [zero_add]
      omega
    rw [this, hs]
    simp [List.drop_append]
  rw [hc]
  exact hs

theorem split_unique (p q : GoString) :
    ∀ (c d : GoString), Char.ofNat 64 ∉ p → Char.ofNat 64 ∉ q →
      p ++ Char.ofNat 64 :: c = q ++ Char.ofNat 64 :: d → p = q ∧ c = d := by
  induction p generalizing q with
  | nil =>
    intro c d _ hq h
    cases q with
    | nil => simpa using h
    | cons x xs =>
      simp only [List.nil_append, List.cons_append, List.cons.injEq] at h
      simp only [List.mem_cons, not_or] at hq
      exact absurd h.1 hq.1
  | cons y ys ih =>
    intro c d hp hq h
    cases q with
    | nil =>
      simp only [List.nil_append, List.cons_append, List.cons.injEq] at h
      simp only [List.mem_cons, not_or] at hp
      exact absurd h.1.symm hp.1
    | cons x xs =>
      simp only [List.cons_append, List.cons.injEq] at h
      simp only [List.mem_cons, not_or] at hp hq
      obtain ⟨h1, h2⟩ := ih xs c d hp.2 hq.2 h.2
      exact ⟨by rw [h.1, h1], h2⟩

/-! ## What each building block of the loop body shows to the observers -/

theorem respondWithError_eq {Ev : Type} (w : World Ev) (m : GoString) :
    ∃ log : List (Event Ev), (∀ e ∈ log, ∃ t, e = .Errorf t) ∧
      respondWithError w m = [.respondWithError m, .Run (replyActions m)] ++ log := by
  unfold respondWithError
  cases w.run (replyActions m) with
  | none => exact ⟨[], by simp, rfl⟩
  | some err => exact ⟨[.Errorf ("Failed to send error message: ".toList ++ err)], by simp, rfl⟩

theorem respondWithSuccess_eq {Ev : Type} (w : World Ev) (m : GoString) :
    ∃ log : List (Event Ev), (∀ e ∈ log, ∃ t, e = .Errorf t) ∧
      respondWithSuccess w m = [.respondWithSuccess m, .Run (replyActions m)] ++ log := by
  unfold respondWithSuccess
  cases w.run (replyActions m) with
  | none => exact ⟨[], by simp, rfl⟩
  | some err => exact ⟨[.Errorf ("Failed to send success message: ".toList ++ err)], by simp, rfl⟩

theorem filter_log_nil {Ev : Type} (f : Event Ev → Bool) (hf : ∀ t, f (.Errorf t) = false)
    (log : List (Event Ev)) (h : ∀ e ∈ log, ∃ t, e = .Errorf t) : log.filter f = [] := by
  rw [List.filter_eq_nil_iff]
  intro e he
  obtain ⟨t, rfl⟩ := h e he
  simp [hf t]

section observers

variable {Ev : Type} (w : World Ev) (m : GoString)

@[simp] theorem reply_respondWithError :
    (respondWithError w m).filter Event.isReply = [.respondWithError m] := by
  obtain ⟨log, hlog, h⟩ := respondWithError_eq w m
  rw [h, List.filter_append, filter_log_nil _ (fun _ => rfl) log hlog]
  rfl

@[simp] theorem reply_respondWithSuccess :
    (respondWithSuccess w m).filter Event.isReply = [.respondWithSuccess m] := by
  obtain ⟨log, hlog, h⟩ := respondWithSuccess_eq w m
  rw [h, List.filter_append, filter_log_nil _ (fun _ => rfl) log hlog]
  rfl

@[simp] theorem typing_respondWithError :
    (respondWithError w m).filter Event.isTyping = [.Run (replyActions m)] := by
  obtain ⟨log, hlog, h⟩ := respondWithError_eq w m
  rw [h, List.filter_append, filter_log_nil _ (fun _ => rfl) log hlog]
  rfl

@[simp] theorem typing_respondWithSuccess :
    (respondWithSuccess w m).filter Event.isTyping = [.Run (replyActions m)] := by
  obtain ⟨log, hlog, h⟩ := respondWithSuccess_eq w m
  rw [h, List.filter_append, filter_log_nil _ (fun _ => rfl) log hlog]
  rfl

@[simp] theorem parseCall_respondWithError :
    (respondWithError w m).filter Event.isParseCall = [] := by
  obtain ⟨log, hlog, h⟩ := respondWithError_eq w m
  rw [h, List.filter_append, filter_log_nil _ (fun _ => rfl) log hlog]
  rfl

@[simp] theorem parseCall_respondWithSuccess :
    (respondWithSuccess w m).filter Event.isParseCall = [] := by
  obtain ⟨log, hlog, h⟩ := respondWithSuccess_eq w m
  rw [h, List.filter_append, filter_log_nil _ (fun _ => rfl) log hlog]
  rfl

@[simp] theorem modelCall_respondWithError :
    (respondWithError w m).filter Event.isModelCall = [] := by
  obtain ⟨log, hlog, h⟩ := respondWithError_eq w m
  rw [h, List.filter_append, filter_log_nil _ (fun _ => rfl) log hlog]
  rfl

@[simp] theorem modelCall_respondWithSuccess :
    (respondWithSuccess w m).filter Event.isModelCall = [] := by
  obtain ⟨log, hlog, h⟩ := respondWithSuccess_eq w m
  rw [h, List.filter_append, filter_log_nil _ (fun _ => rfl) log hlog]
  rfl

@[simp] theorem store_respondWithError :
    (respondWithError w m).filter Event.isStore = [] := by
  obtain ⟨log, hlog, h⟩ := respondWithError_eq w m
  rw [h, List.filter_append, filter_log_nil _ (fun _ => rfl) log hlog]
  rfl

@[simp] theorem store_respondWithSuccess :
    (respondWithSuccess w m).filter Event.isStore = [] := by
  obtain ⟨log, hlog, h⟩ := respondWithSuccess_eq w m
  rw [h, List.filter_append, filter_log_nil _ (fun _ => rfl) log hlog]
  rfl

end observers

/-- The events of a pass of `whatsapp.go` whose text holds the trigger, by outcome. -/
theorem loopBody_of_mention (w : World EventDetails) (claudeAPIKey text : GoString)
    (hw : w.readText = .ok text) (hat : '@' ∈ text) :
    loopBody w claudeAPIKey =
      (([.Sleep 5, .Run [.Text messageSelector]] : List (Event EventDetails)) ++
        parseEventDetailsTrace (messageContent text) claudeAPIKey ++
        (match parseEventDetails w (messageContent text) claudeAPIKey with
         | (_, some err) =>
           [.Errorf ("Failed to parse event details: ".toList ++ err)] ++
             respondWithError w notUnderstoodText
         | (eventDetails, none) =>
           if detailsMissing eventDetails then respondWithError w missingDetailsText
           else
             match w.storeEvent (extractUserIdentifier text) eventDetails with
             | some err =>
               [.storeEvent (extractUserIdentifier text) eventDetails,
                 .Errorf ("Failed to store event in Redis: ".toList ++ err)] ++
                 respondWithError w notStoredText
             | none =>
               [.storeEvent (extractUserIdentifier text) eventDetails] ++
                 printDetails eventDetails ++ respondWithSuccess w (successText eventDetails)),
       .next) := by
  have hc : Contains text "@".toList = true := (contains_at_iff text).mpr hat
  simp only [loopBody, hw, hc, if_true]
  rcases hp : parseEventDetails w (messageContent text) claudeAPIKey with ⟨ev, _ | err⟩
  · simp only
    by_cases hm : detailsMissing ev = true
    · simp [hm]
    · simp only [hm]
      cases hs : w.storeEvent (extractUserIdentifier text) ev <;> simp
  · simp

/-- The events of a pass of `main.go` whose text holds the trigger, by outcome. -/
theorem MainGo.earlier_loopBody_of_mention (w : World MainGo.EventDetails)
    (claudeAPIKey text : GoString) (hw : w.readText = .ok text) (hat : '@' ∈ text) :
    MainGo.loopBody w claudeAPIKey =
      (([.Sleep 5, .Run [.Text messageSelector]] : List (Event MainGo.EventDetails)) ++
        MainGo.parseEventDetailsTrace (messageContent text) claudeAPIKey ++
        (match MainGo.parseEventDetails w (messageContent text) claudeAPIKey with
         | (_, some err) =>
           [.Errorf ("Failed to parse event details: ".toList ++ err)] ++
             respondWithError w MainGo.notUnderstoodText
         | (eventDetails, none) =>
           if MainGo.detailsMissing eventDetails then respondWithError w missingDetailsText
           else
             MainGo.printDetails eventDetails ++
               respondWithSuccess w (MainGo.successText eventDetails)),
       .next) := by
  have hc : Contains text "@".toList = true := (contains_at_iff text).mpr hat
  simp only [MainGo.loopBody, hw, hc, if_true]
  rcases hp : MainGo.parseEventDetails w (messageContent text) claudeAPIKey with ⟨ev, _ | err⟩
  · simp only
    by_cases hm : MainGo.detailsMissing ev = true
    · simp [hm]
    · simp [hm]
  · simp

/-- The events of a pass whose text does not hold the trigger. -/
theorem loopBody_of_no_mention (w : World EventDetails) (claudeAPIKey text : GoString)
    (hw : w.readText = .ok text) (hat : '@' ∉ text) :
    loopBody w claudeAPIKey = ([.Sleep 5, .Run [.Text messageSelector]], .next) := by
  have hc : Contains text "@".toList = false := by
    cases h : Contains text "@".toList with
    | false => rfl
    | true => exact absurd ((contains_at_iff text).mp h) hat
  simp only [loopBody, hw, hc]
  rfl

/-! ## The loop, the completeness test, the confirmation -/

/-- Every pass of the loop body ends with the next pass. -/
theorem loopBody_next (w : World EventDetails) (claudeAPIKey : GoString) :
    (loopBody w claudeAPIKey).2 = .next := by
  cases hr : w.readText with
  | error e => simp only [loopBody, hr]
  | ok text =>
    by_cases hat : '@' ∈ text
    · rw [loopBody_of_mention w claudeAPIKey text hr hat]
    · rw [loopBody_of_no_mention w claudeAPIKey text hr hat]

/-- The loop runs every pass it is given and is still running afterwards. -/
theorem listenForMentions_eq (claudeAPIKey : GoString) (ws : List (World EventDetails)) :
    listenForMentions claudeAPIKey ws =
      ((ws.map (fun w => (loopBody w claudeAPIKey).1)).flatten, .next) := by
  induction ws with
  | nil => rfl
  | cons w ws ih =>
    have h := loopBody_next w claudeAPIKey
    rcases hb : loopBody w claudeAPIKey with ⟨events, c⟩
    rw [hb] at h
    simp only at h
    subst h
    simp [listenForMentions, hb, ih]

/-- The completeness test accepts exactly the records whose four required fields
are non-empty. -/
theorem detailsMissing_eq_false_iff (e : EventDetails) :
    detailsMissing e = false ↔
      e.Title ≠ [] ∧ e.Date ≠ [] ∧ e.Time ≠ [] ∧ e.Duration ≠ [] := by
  simp [detailsMissing, and_assoc]

/-- The completeness test in the words of the claims. -/
theorem detailsMissing_iff (e : EventDetails) :
    detailsMissing e = true ↔ e.Title = [] ∨ e.Date = [] ∨ e.Time = [] ∨ e.Duration = [] := by
  simp [detailsMissing, or_assoc]

/-- Each of the five fields stands in the confirmation text as it is. -/
theorem successText_contains (e : EventDetails) :
    e.Title <:+: successText e ∧ e.Date <:+: successText e ∧ e.Time <:+: successText e ∧
    e.Duration <:+: successText e ∧ e.Recurrence <:+: successText e := by
  refine ⟨⟨"Okay, I\x27ve noted the event: ".toList, " on ".toList ++ e.Date ++
      " at ".toList ++ e.Time ++ " for ".toList ++ e.Duration ++
      ". Recurrence: ".toList ++ e.Recurrence, ?_⟩,
    ⟨"Okay, I\x27ve noted the event: ".toList ++ e.Title ++ " on ".toList,
      " at ".toList ++ e.Time ++ " for ".toList ++ e.Duration ++
      ". Recurrence: ".toList ++ e.Recurrence, ?_⟩,
    ⟨"Okay, I\x27ve noted the event: ".toList ++ e.Title ++ " on ".toList ++ e.Date ++
      " at ".toList, " for ".toList ++ e.Duration ++ ". Recurrence: ".toList ++ e.Recurrence,
      ?_⟩,
    ⟨"Okay, I\x27ve noted the event: ".toList ++ e.Title ++ " on ".toList ++ e.Date ++
      " at ".toList ++ e.Time ++ " for ".toList, ". Recurrence: ".toList ++ e.Recurrence, ?_⟩,
    ⟨"Okay, I\x27ve noted the event: ".toList ++ e.Title ++ " on ".toList ++ e.Date ++
      " at ".toList ++ e.Time ++ " for ".toList ++ e.Duration ++ ". Recurrence: ".toList, [],
      ?_⟩⟩ <;>
    simp only [successText, List.append_assoc, List.append_nil]

/-! ## Reading back what `quote` writes -/

theorem hexVal_hexDigit : ∀ k, k < 16 → hexVal (hexDigit k) = some k := by decide

theorem getu4_control (c : Char) (h : c.toNat < 0x20) (more : GoString) :
    getu4 ('\\' :: 'u' :: '0' :: '0' :: hexDigit (c.toNat / 16) :: hexDigit (c.toNat % 16)
      :: more) = some c.toNat := by
  have h1 : hexVal (hexDigit (c.toNat / 16)) = some (c.toNat / 16) :=
    hexVal_hexDigit _ (by omega)
  have h2 : hexVal (hexDigit (c.toNat % 16)) = some (c.toNat % 16) :=
    hexVal_hexDigit _ (by omega)
  have h0 : hexVal '0' = some 0 := by decide
  simp only [getu4, hex4, h0, h1, h2]
  congr 1
  omega

theorem parseStringAux_unicode (rest : GoString) (rr : Nat)
    (h : getu4 ('\\' :: 'u' :: rest) = some rr) (hs : isSurrogate rr = false) :
    parseStringAux 0 ('\\' :: 'u' :: rest) =
      (parseStringAux 5 ('u' :: rest)).map (fun p => (Char.ofNat rr :: p.1, p.2)) := by
  simp [parseStringAux, h, hs]

theorem parseStringAux_escape (s : GoString) (rest : GoString) :
    parseStringAux 0 (escape s ++ '"' :: rest) = some (s, rest) := by
  induction s with
  | nil => simp [escape, parseStringAux]
  | cons c cs ih =>
    by_cases hq : c = '"'
    · subst hq
      have : escape ('"' :: cs) = '\\' :: '"' :: escape cs := by
        simp [escape, escapeChar]
      rw [this]
      simp [parseStringAux, simpleEscape, ih]
    · by_cases hb : c = '\\'
      · subst hb
        have : escape ('\\' :: cs) = '\\' :: '\\' :: escape cs := by
          simp [escape, escapeChar]
        rw [this]
        simp [parseStringAux, simpleEscape, ih]
      · by_cases hl : c.toNat < 0x20
        · have : escape (c :: cs) = '\\' :: 'u' :: '0' :: '0' :: hexDigit (c.toNat / 16) ::
              hexDigit (c.toNat % 16) :: escape cs := by
            simp [escape, escapeChar, hq, hb, hl]
          rw [this]
          have hs : isSurrogate c.toNat = false := by
            simp only [isSurrogate, decide_eq_false_iff_not]
            omega
          simp only [List.cons_append]
          rw [parseStringAux_unicode _ _ (getu4_control c hl _) hs]
          show Option.map _ (parseStringAux 0 (escape cs ++ '"' :: rest)) = _
          rw [ih, Char.ofNat_toNat]
          rfl
        · have : escape (c :: cs) = c :: escape cs := by
            simp [escape, escapeChar, hq, hb, hl]
          rw [this]
          simp [parseStringAux, hq, hb, hl, ih]

theorem parseString_quote_body (s rest : GoString) :
    parseString (escape s ++ '"' :: rest) = some (s, rest) :=
  parseStringAux_escape s rest

theorem parseValue_quote (fuel depth : Nat) (v rest : GoString) :
    parseValue (fuel + 1) depth (quote v ++ rest) = .ok (.str v, rest) := by
  have h : quote v ++ rest = '"' :: (escape v ++ '"' :: rest) := by
    simp [quote, List.append_assoc]
  rw [h]
  simp [parseValue, parseString_quote_body]

theorem skipSpace_cons_of_not_space (c : Char) (cs : GoString) (h : isSpace c = false) :
    skipSpace (c :: cs) = c :: cs := by
  simp [skipSpace, h]

theorem skipSpace_quote (v rest : GoString) : skipSpace (quote v ++ rest) = quote v ++ rest := by
  have h : quote v ++ rest = '"' :: (escape v ++ '"' :: rest) := by
    simp [quote, List.append_assoc]
  rw [h]
  exact skipSpace_cons_of_not_space _ _ (by decide)

theorem parseMembers_comma (fuel depth : Nat) (k v rest : GoString) :
    parseMembers (fuel + 2) depth (quote k ++ (':' :: (quote v ++ (',' :: rest)))) =
      match parseMembers (fuel + 1) depth (skipSpace rest) with
      | .ok (ms, r) => .ok ((k, .str v) :: ms, r)
      | .error e => .error e := by
  have h : quote k ++ (':' :: (quote v ++ (',' :: rest))) =
      '"' :: (escape k ++ '"' :: (':' :: (quote v ++ (',' :: rest)))) := by
    simp [quote, List.append_assoc]
  rw [h, parseMembers]
  simp only [parseString_quote_body, if_true]
  rw [skipSpace_cons_of_not_space _ _ (by decide)]
  simp only [if_true, skipSpace_quote, parseValue_quote]
  rw [skipSpace_cons_of_not_space _ _ (by decide)]
  simp only [if_true]

theorem parseMembers_close (fuel depth : Nat) (k v rest : GoString) :
    parseMembers (fuel + 2) depth (quote k ++ (':' :: (quote v ++ ('}' :: rest)))) =
      .ok ([(k, .str v)], rest) := by
  have h : quote k ++ (':' :: (quote v ++ ('}' :: rest))) =
      '"' :: (escape k ++ '"' :: (':' :: (quote v ++ ('}' :: rest)))) := by
    simp [quote, List.append_assoc]
  rw [h, parseMembers]
  simp only [parseString_quote_body, if_true]
  rw [skipSpace_cons_of_not_space _ _ (by decide)]
  simp only [if_true, skipSpace_quote, parseValue_quote]
  rw [skipSpace_cons_of_not_space _ _ (by decide)]
  have hne : ¬ ('}' = ',') := by decide
  simp only [hne, if_false, if_true]

theorem parseValue_object (fuel depth : Nat) (hd : depth + 1 ≤ maxNestingDepth)
    (k rest : GoString) :
    parseValue (fuel + 1) depth ('{' :: (quote k ++ rest)) =
      match parseMembers fuel (depth + 1) (quote k ++ rest) with
      | .ok (ms, r) => .ok (.obj ms, r)
      | .error e => .error e := by
  have hd2 : ¬ (depth + 1 > maxNestingDepth) := by omega
  rw [parseValue]
  simp only [if_true, hd2, if_false, skipSpace_quote]
  have h : quote k ++ rest = '"' :: (escape k ++ '"' :: rest) := by
    simp [quote, List.append_assoc]
  rw [h]
  have hne : ¬ ('"' = '}') := by decide
  simp only [hne, if_false]

theorem eventJSON_eq (t d tm du r : GoString) :
    eventJSON t d tm du r =
      '{' :: (quote "title".toList ++ (':' :: (quote t ++ (',' ::
        (quote "date".toList ++ (':' :: (quote d ++ (',' ::
        (quote "time".toList ++ (':' :: (quote tm ++ (',' ::
        (quote "duration".toList ++ (':' :: (quote du ++ (',' ::
        (quote "recurrence".toList ++ (':' :: (quote r ++ ('}' :: [])))))))))))))))))))) := by
  have h1 : quote "title".toList = "\"title\"".toList := by decide
  have h2 : quote "date".toList = "\"date\"".toList := by decide
  have h3 : quote "time".toList = "\"time\"".toList := by decide
  have h4 : quote "duration".toList = "\"duration\"".toList := by decide
  have h5 : quote "recurrence".toList = "\"recurrence\"".toList := by decide
  rw [h1, h2, h3, h4, h5]
  simp [eventJSON, List.append_assoc]

theorem parseJSON_eventJSON (t d tm du r : GoString) :
    parseJSON (eventJSON t d tm du r) =
      .ok (.obj [("title".toList, .str t), ("date".toList, .str d), ("time".toList, .str tm),
        ("duration".toList, .str du), ("recurrence".toList, .str r)]) := by
  obtain ⟨n, hn⟩ : ∃ n, 2 * (eventJSON t d tm du r).length + 1 = n + 6 + 1 := by
    refine ⟨2 * (eventJSON t d tm du r).length - 6, ?_⟩
    have : 6 ≤ (eventJSON t d tm du r).length := by
      simp [eventJSON, quote]
    omega
  have e5 : parseMembers (n + 2) 1
      (quote "recurrence".toList ++ (':' :: (quote r ++ ('}' :: [])))) =
      .ok ([("recurrence".toList, .str r)], []) := parseMembers_close n 1 _ _ _
  have e4 := parseMembers_comma (n + 1) 1 "duration".toList du
    (quote "recurrence".toList ++ (':' :: (quote r ++ ('}' :: []))))
  rw [skipSpace_quote, e5] at e4
  have e3 := parseMembers_comma (n + 2) 1 "time".toList tm
    (quote "duration".toList ++ (':' :: (quote du ++ (',' ::
      (quote "recurrence".toList ++ (':' :: (quote r ++ ('}' :: []))))))))
  rw [skipSpace_quote, e4] at e3
  have e2 := parseMembers_comma (n + 3) 1 "date".toList d
    (quote "time".toList ++ (':' :: (quote tm ++ (',' ::
      (quote "duration".toList ++ (':' :: (quote du ++ (',' ::
      (quote "recurrence".toList ++ (':' :: (quote r ++ ('}' :: []))))))))))))
  rw [skipSpace_quote, e3] at e2
  have e1 := parseMembers_comma (n + 4) 1 "title".toList t
    (quote "date".toList ++ (':' :: (quote d ++ (',' ::
      (quote "time".toList ++ (':' :: (quote tm ++ (',' ::
      (quote "duration".toList ++ (':' :: (quote du ++ (',' ::
      (quote "recurrence".toList ++ (':' :: (quote r ++ ('}' :: []))))))))))))))))
  rw [skipSpace_quote, e2] at e1
  unfold parseJSON
  rw [hn, eventJSON_eq, skipSpace_cons_of_not_space _ _ (by decide),
    parseValue_object (n + 6) 0 (by decide), e1]
  rfl

theorem unmarshal_eventJSON (t d tm du r : GoString) :
    Unmarshal EventDetails.structType (eventJSON t d tm du r) {} =
      ({ Title := t, Date := d, Time := tm, Duration := du, Recurrence := r }, none) := by
  have f1 : findField EventDetails.structType.names "title".toList = some 0 := by decide
  have f2 : findField EventDetails.structType.names "date".toList = some 1 := by decide
  have f3 : findField EventDetails.structType.names "time".toList = some 2 := by decide
  have f4 : findField EventDetails.structType.names "duration".toList = some 3 := by decide
  have f5 : findField EventDetails.structType.names "recurrence".toList = some 4 := by decide
  simp only [Unmarshal, parseJSON_eventJSON, List.foldl, storeMember, f1, f2, f3, f4, f5]
  rfl

/-! ## When `json.Unmarshal` returns an error -/

theorem storeMember_error {σ : Type} (ty : StructType σ) (st : σ × Option JsonError)
    (m : GoString × JSON) :
    (storeMember ty st m).2.isSome = (st.2.isSome || mismatched ty m) := by
  unfold storeMember mismatched
  cases findField ty.names m.1 with
  | none => simp
  | some i =>
    rcases st with ⟨v, _ | old⟩ <;> cases m.2 <;> simp [saveError]

theorem foldl_storeMember_error {σ : Type} (ty : StructType σ)
    (ms : List (GoString × JSON)) :
    ∀ st : σ × Option JsonError,
      (ms.foldl (storeMember ty) st).2.isSome = (st.2.isSome || ms.any (mismatched ty)) := by
  induction ms with
  | nil => intro st; simp
  | cons m ms ih =>
    intro st
    rw [List.foldl_cons, ih, storeMember_error, List.any_cons, Bool.or_assoc]

/-- `json.Unmarshal` returns an error exactly for the refused texts. -/
theorem unmarshal_error_iff {σ : Type} (ty : StructType σ) (data : GoString) (v : σ) :
    (Unmarshal ty data v).2.isSome = refused ty data := by
  unfold Unmarshal refused
  cases parseJSON data with
  | error e => rfl
  | ok j =>
    cases j with
    | obj members => simp [foldl_storeMember_error]
    | _ => rfl

/-! ## The model of the decoder accepts only texts of the grammar -/

theorem isSpace_iff (c : Char) :
    isSpace c = true ↔ (c = ' ' ∨ c = '\t' ∨ c = '\n' ∨ c = '\r') := by
  simp only [isSpace, Bool.or_eq_true, beq_iff_eq]
  tauto

theorem skipSpace_sound (s : GoString) : ∃ w, s = w ++ skipSpace s ∧ IsWs w := by
  induction s with
  | nil => exact ⟨[], rfl, by simp [IsWs]⟩
  | cons c cs ih =>
    by_cases h : isSpace c = true
    · obtain ⟨w, hw, hws⟩ := ih
      refine ⟨c :: w, ?_, ?_⟩
      · simp only [skipSpace, h, if_true, List.cons_append]
        rw [← hw]
      · intro x hx
        rcases List.mem_cons.mp hx with rfl | hx
        · exact (isSpace_iff _).mp h
        · exact hws x hx
    · refine ⟨[], ?_, by simp [IsWs]⟩
      simp [skipSpace, h]

theorem hexVal_isSome (c : Char) (n : Nat) (h : hexVal c = some n) : IsHexDigit c := by
  unfold hexVal at h
  unfold IsHexDigit
  split_ifs at h with h1 h2 h3
  · exact Or.inl h1
  · exact Or.inr (Or.inl h2)
  · exact Or.inr (Or.inr h3)

theorem hex4_isSome (a b c d : Char) (n : Nat) (h : hex4 a b c d = some n) :
    IsHexDigit a ∧ IsHexDigit b ∧ IsHexDigit c ∧ IsHexDigit d := by
  unfold hex4 at h
  cases ha : hexVal a with
  | none => simp [ha] at h
  | some x =>
    cases hb : hexVal b with
    | none => simp [ha, hb] at h
    | some y =>
      cases hc : hexVal c with
      | none => simp [ha, hb, hc] at h
      | some z =>
        cases hd : hexVal d with
        | none => simp [ha, hb, hc, hd] at h
        | some w =>
          exact ⟨hexVal_isSome a x ha, hexVal_isSome b y hb, hexVal_isSome c z hc,
            hexVal_isSome d w hd⟩

theorem getu4_sound (s : GoString) (n : Nat) (h : getu4 s = some n) :
    ∃ a b c d rest, s = '\\' :: 'u' :: a :: b :: c :: d :: rest ∧
      IsHexDigit a ∧ IsHexDigit b ∧ IsHexDigit c ∧ IsHexDigit d := by
  unfold getu4 at h
  split at h
  · rename_i a b c d rest
    exact ⟨a, b, c, d, rest, rfl, hex4_isSome a b c d n h⟩
  · simp at h

theorem simpleEscape_sound (e x : Char) (h : simpleEscape e = some x) :
    e = '"' ∨ e = '\\' ∨ e = '/' ∨ e = 'b' ∨ e = 'f' ∨ e = 'n' ∨ e = 'r' ∨ e = 't' := by
  unfold simpleEscape at h
  split_ifs at h <;> tauto

theorem map_cons_eq_some {x : Char} {o : Option (GoString × GoString)} {t rest : GoString}
    (h : o.map (fun p => (x :: p.1, p.2)) = some (t, rest)) :
    ∃ t', o = some (t', rest) := by
  cases o with
  | none => simp at h
  | some p =>
    simp only [Option.map_some', Option.some.injEq, Prod.mk.injEq] at h
    exact ⟨p.1, by rw [← h.2]⟩

theorem parseStringAux_sound :
    ∀ (n : Nat) (s : GoString), s.length ≤ n → ∀ t rest,
      parseStringAux 0 s = some (t, rest) → ∃ body, s = body ++ '"' :: rest ∧ IsChars body := by
  intro n
  induction n with
  | zero =>
    intro s hs t rest h
    have : s = [] := List.length_eq_zero.mp (Nat.le_zero.mp hs)
    subst this
    simp [parseStringAux] at h
  | succ n ih =>
    intro s hs t rest h
    cases s with
    | nil => simp [parseStringAux] at h
    | cons c cs =>
      unfold parseStringAux at h
      simp only [List.length_cons] at hs
      by_cases hq : c = '"'
      · simp only [hq, if_true, Option.some.injEq, Prod.mk.injEq] at h
        exact ⟨[], by simp [hq, h.2], IsChars.nil⟩
      · simp only [hq, if_false] at h
        by_cases hb : c = '\\'
        · subst hb
          simp only [if_true] at h
          cases cs with
          | nil => simp at h
          | cons e cs' =>
            simp only at h
            by_cases hu : e = 'u'
            · subst hu
              simp only [if_true] at h
              cases hg : getu4 ('\\' :: 'u' :: cs') with
              | none => simp [hg] at h
              | some rr =>
                obtain ⟨a, b, c, d, more, hmore, ha, hb, hc, hd⟩ := getu4_sound _ _ hg
                simp only [List.cons.injEq, true_and] at hmore
                subst hmore
                simp only [hg] at h
                have e5 : parseStringAux 5 ('u' :: a :: b :: c :: d :: more) =
                    parseStringAux 0 more := rfl
                have ed : List.drop 5 ('u' :: a :: b :: c :: d :: more) = more := rfl
                rw [e5, ed] at h
                have hlen : more.length ≤ n := by
                  simp only [List.length_cons] at hs
                  omega
                have single : ∀ x : Char,
                    Option.map (fun p => (x :: p.1, p.2)) (parseStringAux 0 more) =
                      some (t, rest) →
                    ∃ body, '\\' :: 'u' :: a :: b :: c :: d :: more = body ++ '"' :: rest ∧
                      IsChars body := by
                  intro x hx
                  obtain ⟨t', ht'⟩ := map_cons_eq_some hx
                  obtain ⟨body, hbody, hchars⟩ := ih more hlen t' rest ht'
                  exact ⟨'\\' :: 'u' :: a :: b :: c :: d :: body, by simp [hbody],
                    IsChars.unicode a b c d body ha hb hc hd hchars⟩
                by_cases hsur : isSurrogate rr = true
                · simp only [hsur, if_true] at h
                  cases hg1 : getu4 more with
                  | none =>
                    simp only [hg1] at h
                    exact single _ h
                  | some rr1 =>
                    simp only [hg1] at h
                    by_cases hdec : decodeSurrogates rr rr1 = replacementChar
                    · simp only [hdec, ne_eq, not_true_eq_false, if_false] at h
                      exact single _ h
                    · simp only [hdec, ne_eq, not_false_eq_true, if_true] at h
                      obtain ⟨a1, b1, c1, d1, more1, hmore1, ha1, hb1, hc1, hd1⟩ :=
                        getu4_sound _ _ hg1
                      subst hmore1
                      have e11 : parseStringAux 11
                          ('u' :: a :: b :: c :: d :: '\\' :: 'u' :: a1 :: b1 :: c1 :: d1 :: more1) =
                          parseStringAux 0 more1 := rfl
                      rw [e11] at h
                      obtain ⟨t', ht'⟩ := map_cons_eq_some h
                      have hlen1 : more1.length ≤ n := by
                        simp only [List.length_cons] at hlen
                        omega
                      obtain ⟨body, hbody, hchars⟩ := ih more1 hlen1 t' rest ht'
                      exact ⟨'\\' :: 'u' :: a :: b :: c :: d :: '\\' :: 'u' :: a1 :: b1 :: c1 ::
                          d1 :: body, by simp [hbody],
                        IsChars.unicode a b c d _ ha hb hc hd
                          (IsChars.unicode a1 b1 c1 d1 body ha1 hb1 hc1 hd1 hchars)⟩
                · simp only [hsur, if_false] at h
                  exact single _ h
            · simp only [hu, if_false] at h
              cases he : simpleEscape e with
              | none => simp [he] at h
              | some x =>
                simp only [he] at h
                have e1 : parseStringAux 1 (e :: cs') = parseStringAux 0 cs' := rfl
                rw [e1] at h
                obtain ⟨t', ht'⟩ := map_cons_eq_some h
                have hlen : cs'.length ≤ n := by
                  simp only [List.length_cons] at hs
                  omega
                obtain ⟨body, hbody, hchars⟩ := ih cs' hlen t' rest ht'
                exact ⟨'\\' :: e :: body, by simp [hbody],
                  IsChars.escaped e body (simpleEscape_sound e x he) hchars⟩
        · simp only [hb, if_false] at h
          by_cases hl : c.toNat < 0x20
          · simp [hl] at h
          · simp only [hl, if_false] at h
            obtain ⟨t', ht'⟩ := map_cons_eq_some h
            obtain ⟨body, hbody, hchars⟩ := ih cs (by omega) t' rest ht'
            exact ⟨c :: body, by simp [hbody],
              IsChars.unescaped c body hq hb (by omega) hchars⟩

theorem parseString_sound (s t rest : GoString) (h : parseString s = some (t, rest)) :
    ∃ body, s = body ++ '"' :: rest ∧ IsChars body :=
  parseStringAux_sound s.length s (Nat.le_refl _) t rest h

theorem isDigit_iff (c : Char) : isDigit c = true ↔ ('0' ≤ c ∧ c ≤ '9') := by
  simp [isDigit]

theorem takeWhile_isDigits (s : GoString) : IsDigits (s.takeWhile isDigit) := by
  intro c hc
  exact (isDigit_iff c).mp (List.mem_takeWhile_imp hc)

theorem scanExp_sound (s rest : GoString) (h : scanExp s = some rest) :
    ∃ e, s = e ++ rest ∧ IsOptExp e := by
  unfold scanExp at h
  cases s with
  | nil =>
    simp only [Option.some.injEq] at h
    exact ⟨[], by simp [h], Or.inl rfl⟩
  | cons c cs =>
    simp only at h
    by_cases he : c = 'e' ∨ c = 'E'
    · simp only [he, if_true] at h
      cases cs with
      | nil => simp at h
      | cons x xs =>
        simp only at h
        by_cases hx : x = '+' ∨ x = '-'
        · simp only [hx, if_true] at h
          by_cases hd : xs.takeWhile isDigit = []
          · simp [hd] at h
          · simp only [hd, if_false, Option.some.injEq] at h
            refine ⟨c :: ([x] ++ xs.takeWhile isDigit), ?_, Or.inr ⟨c, [x], _, rfl, he, ?_, hd,
              takeWhile_isDigits xs⟩⟩
            · rw [← h]
              simp [List.takeWhile_append_dropWhile]
            · rcases hx with rfl | rfl
              · exact Or.inr (Or.inl rfl)
              · exact Or.inr (Or.inr rfl)
        · simp only [hx, if_false] at h
          by_cases hd : (x :: xs).takeWhile isDigit = []
          · simp [hd] at h
          · simp only [hd, if_false, Option.some.injEq] at h
            refine ⟨c :: ([] ++ (x :: xs).takeWhile isDigit), ?_, Or.inr ⟨c, [], _, rfl, he,
              Or.inl rfl, hd, takeWhile_isDigits (x :: xs)⟩⟩
            rw [← h]
            simp only [List.nil_append, List.cons_append, List.takeWhile_append_dropWhile]
    · simp only [he, if_false, Option.some.injEq] at h
      exact ⟨[], by simp [h], Or.inl rfl⟩

theorem scanFrac_sound (s rest : GoString) (h : scanFrac s = some rest) :
    ∃ f e, s = f ++ (e ++ rest) ∧ IsOptFrac f ∧ IsOptExp e := by
  unfold scanFrac at h
  cases s with
  | nil =>
    simp only [Option.some.injEq] at h
    exact ⟨[], [], by simp [h], Or.inl rfl, Or.inl rfl⟩
  | cons c cs =>
    simp only at h
    by_cases hc : c = '.'
    · simp only [hc, if_true] at h
      by_cases hd : cs.takeWhile isDigit = []
      · simp [hd] at h
      · simp only [hd, if_false] at h
        obtain ⟨e, he, hexp⟩ := scanExp_sound _ _ h
        refine ⟨'.' :: cs.takeWhile isDigit, e, ?_, Or.inr ⟨_, rfl, hd, takeWhile_isDigits cs⟩,
          hexp⟩
        rw [hc, ← he]
        simp [List.takeWhile_append_dropWhile]
    · simp only [hc, if_false] at h
      obtain ⟨e, he, hexp⟩ := scanExp_sound _ _ h
      exact ⟨[], e, by simpa using he, Or.inl rfl, hexp⟩

theorem scanInt_sound (s rest : GoString) (h : scanInt s = some rest) :
    ∃ i f e, s = i ++ (f ++ (e ++ rest)) ∧ IsInt i ∧ IsOptFrac f ∧ IsOptExp e := by
  unfold scanInt at h
  cases s with
  | nil => simp at h
  | cons c cs =>
    simp only at h
    by_cases h0 : c = '0'
    · simp only [h0, if_true] at h
      obtain ⟨f, e, hfe, hf, he⟩ := scanFrac_sound _ _ h
      exact ⟨['0'], f, e, by simp [h0, hfe], Or.inl rfl, hf, he⟩
    · simp only [h0, if_false] at h
      by_cases h1 : '1' ≤ c ∧ c ≤ '9'
      · simp only [h1, and_self, if_true] at h
        obtain ⟨f, e, hfe, hf, he⟩ := scanFrac_sound _ _ h
        refine ⟨c :: cs.takeWhile isDigit, f, e, ?_,
          Or.inr ⟨c, _, rfl, h1.1, h1.2, takeWhile_isDigits cs⟩, hf, he⟩
        rw [List.cons_append, ← hfe, List.takeWhile_append_dropWhile]
      · simp [h1] at h

theorem scanNumber_sound (s rest : GoString) (h : scanNumber s = some rest) :
    ∃ n, s = n ++ rest ∧ IsNumber n := by
  unfold scanNumber at h
  cases s with
  | nil => simp at h
  | cons c cs =>
    simp only at h
    by_cases hm : c = '-'
    · simp only [hm, if_true] at h
      obtain ⟨i, f, e, hs, hi, hf, he⟩ := scanInt_sound _ _ h
      refine ⟨['-'] ++ (i ++ (f ++ e)), ?_, ⟨['-'], i, f, e, rfl, Or.inr rfl, hi, hf, he⟩⟩
      simp [hm, hs]
    · simp only [hm, if_false] at h
      obtain ⟨i, f, e, hs, hi, hf, he⟩ := scanInt_sound _ _ h
      refine ⟨[] ++ (i ++ (f ++ e)), ?_, ⟨[], i, f, e, rfl, Or.inl rfl, hi, hf, he⟩⟩
      simp [hs]

theorem isPrefixOf_split (p s : GoString) (h : p.isPrefixOf s = true) :
    s = p ++ s.drop p.length := by
  obtain ⟨t, ht⟩ := List.isPrefixOf_iff_prefix.mp h
  rw [← ht]
  simp

theorem parse_sound : ∀ fuel : Nat,
    (∀ depth s v rest, parseValue fuel depth s = .ok (v, rest) →
      ∃ tok, s = tok ++ rest ∧ IsValue tok) ∧
    (∀ depth s ms rest, parseMembers fuel depth s = .ok (ms, rest) →
      ∃ tok, s = tok ++ '}' :: rest ∧ IsMembers tok) ∧
    (∀ depth s vs rest, parseElements fuel depth s = .ok (vs, rest) →
      ∃ tok, s = tok ++ ']' :: rest ∧ IsElements tok) := by
  intro fuel
  induction fuel with
  | zero =>
    refine ⟨?_, ?_, ?_⟩
    · intro depth s v rest h
      simp [parseValue] at h
    · intro depth s ms rest h
      simp [parseMembers] at h
    · intro depth s vs rest h
      simp [parseElements] at h
  | succ fuel ih =>
    obtain ⟨ihV, ihM, ihE⟩ := ih
    refine ⟨?_, ?_, ?_⟩
    · intro depth s v rest h
      cases s with
      | nil => simp [parseValue] at h
      | cons c cs =>
        rw [parseValue] at h
        by_cases hobj : c = '{'
        · subst hobj
          simp only [if_true] at h
          by_cases hdepth : depth + 1 > maxNestingDepth
          · simp [hdepth] at h
          · simp only [hdepth, if_false] at h
            obtain ⟨w, hw, hws⟩ := skipSpace_sound cs
            cases hsk : skipSpace cs with
            | nil => simp [hsk] at h
            | cons x xs =>
              rw [hsk] at h hw
              simp only at h
              by_cases hx : x = '}'
              · simp only [hx, if_true, Except.ok.injEq, Prod.mk.injEq] at h
                refine ⟨'{' :: (w ++ ['}']), ?_, IsValue.emptyObject w hws⟩
                rw [hw, hx, ← h.2]
                simp
              · simp only [hx, if_false] at h
                cases hm : parseMembers fuel (depth + 1) (x :: xs) with
                | error e => simp [hm] at h
                | ok r =>
                  obtain ⟨ms, rest'⟩ := r
                  simp only [hm, Except.ok.injEq, Prod.mk.injEq] at h
                  obtain ⟨tok, htok, hmem⟩ := ihM _ _ _ _ hm
                  refine ⟨'{' :: (w ++ (tok ++ ['}'])), ?_, IsValue.object w tok hws hmem⟩
                  rw [hw, htok, ← h.2]
                  simp
        · simp only [hobj, if_false] at h
          by_cases harr : c = '['
          · subst harr
            simp only [if_true] at h
            by_cases hdepth : depth + 1 > maxNestingDepth
            · simp [hdepth] at h
            · simp only [hdepth, if_false] at h
              obtain ⟨w, hw, hws⟩ := skipSpace_sound cs
              cases hsk : skipSpace cs with
              | nil => simp [hsk] at h
              | cons x xs =>
                rw [hsk] at h hw
                simp only at h
                by_cases hx : x = ']'
                · simp only [hx, if_true, Except.ok.injEq, Prod.mk.injEq] at h
                  refine ⟨'[' :: (w ++ [']']), ?_, IsValue.emptyArray w hws⟩
                  rw [hw, hx, ← h.2]
                  simp
                · simp only [hx, if_false] at h
                  cases hm : parseElements fuel (depth + 1) (x :: xs) with
                  | error e => simp [hm] at h
                  | ok r =>
                    obtain ⟨vs, rest'⟩ := r
                    simp only [hm, Except.ok.injEq, Prod.mk.injEq] at h
                    obtain ⟨tok, htok, hel⟩ := ihE _ _ _ _ hm
                    refine ⟨'[' :: (w ++ (tok ++ [']'])), ?_, IsValue.array w tok hws hel⟩
                    rw [hw, htok, ← h.2]
                    simp
          · simp only [harr, if_false] at h
            by_cases hstr : c = '"'
            · subst hstr
              simp only [if_true] at h
              cases hp : parseString cs with
              | none => simp [hp] at h
              | some r =>
                obtain ⟨str, rest'⟩ := r
                simp only [hp, Except.ok.injEq, Prod.mk.injEq] at h
                obtain ⟨body, hbody, hchars⟩ := parseString_sound _ _ _ hp
                refine ⟨'"' :: (body ++ ['"']), ?_, IsValue.string body hchars⟩
                rw [hbody, ← h.2]
                simp
            · simp only [hstr, if_false] at h
              by_cases ht : "true".toList.isPrefixOf (c :: cs) = true
              · simp only [ht, if_true, Except.ok.injEq, Prod.mk.injEq] at h
                refine ⟨['t', 'r', 'u', 'e'], ?_, IsValue.true⟩
                rw [← h.2]
                exact isPrefixOf_split _ _ ht
              · simp only [ht, Bool.false_eq_true, if_false] at h
                by_cases hf : "false".toList.isPrefixOf (c :: cs) = true
                · simp only [hf, Bool.false_eq_true, if_false, if_true, Except.ok.injEq, Prod.mk.injEq] at h
                  refine ⟨['f', 'a', 'l', 's', 'e'], ?_, IsValue.false⟩
                  rw [← h.2]
                  exact isPrefixOf_split _ _ hf
                · simp only [hf, Bool.false_eq_true, if_false] at h
                  by_cases hn : "null".toList.isPrefixOf (c :: cs) = true
                  · simp only [hn, Bool.false_eq_true, if_false, if_true, Except.ok.injEq, Prod.mk.injEq] at h
                    refine ⟨['n', 'u', 'l', 'l'], ?_, IsValue.null⟩
                    rw [← h.2]
                    exact isPrefixOf_split _ _ hn
                  · simp only [hn, Bool.false_eq_true, if_false] at h
                    cases hnum : scanNumber (c :: cs) with
                    | none => simp [hnum] at h
                    | some rest' =>
                      simp only [hnum, Bool.false_eq_true, if_false, Except.ok.injEq, Prod.mk.injEq] at h
                      obtain ⟨tok, htok, hnumber⟩ := scanNumber_sound _ _ hnum
                      refine ⟨tok, ?_, IsValue.number tok hnumber⟩
                      rw [← h.2]
                      exact htok
    · intro depth s ms rest h
      cases s with
      | nil => simp [parseMembers] at h
      | cons c cs =>
        rw [parseMembers] at h
        by_cases hq : c = '"'
        · subst hq
          simp only [if_true] at h
          cases hp : parseString cs with
          | none => simp [hp] at h
          | some r =>
            obtain ⟨key, rest1⟩ := r
            simp only [hp] at h
            obtain ⟨k, hk, hchars⟩ := parseString_sound _ _ _ hp
            obtain ⟨w1, hw1, hws1⟩ := skipSpace_sound rest1
            cases hsk1 : skipSpace rest1 with
            | nil => simp [hsk1] at h
            | cons x xs =>
              rw [hsk1] at h hw1
              simp only at h
              by_cases hx : x = ':'
              · subst hx
                simp only [if_true] at h
                obtain ⟨w2, hw2, hws2⟩ := skipSpace_sound xs
                cases hv : parseValue fuel depth (skipSpace xs) with
                | error e => simp [hv] at h
                | ok r2 =>
                  obtain ⟨v, rest2⟩ := r2
                  simp only [hv] at h
                  obtain ⟨tokv, htokv, hval⟩ := ihV _ _ _ _ hv
                  obtain ⟨w3, hw3, hws3⟩ := skipSpace_sound rest2
                  cases hsk3 : skipSpace rest2 with
                  | nil => simp [hsk3] at h
                  | cons y ys =>
                    rw [hsk3] at h hw3
                    simp only at h
                    have hcs : cs = k ++ ('"' :: (w1 ++ (':' :: (w2 ++ (tokv ++
                        (w3 ++ (y :: ys))))))) := by
                      rw [hk, hw1, hw2, htokv, hw3]
                    by_cases hy : y = ','
                    · subst hy
                      simp only [if_true] at h
                      obtain ⟨w4, hw4, hws4⟩ := skipSpace_sound ys
                      cases hm : parseMembers fuel depth (skipSpace ys) with
                      | error e => simp [hm] at h
                      | ok r3 =>
                        obtain ⟨ms', rest3⟩ := r3
                        simp only [hm, Except.ok.injEq, Prod.mk.injEq] at h
                        obtain ⟨tokm, htokm, hmem⟩ := ihM _ _ _ _ hm
                        refine ⟨_, ?_, IsMembers.more k w1 w2 tokv w3 w4 tokm hchars hws1 hws2
                          hval hws3 hws4 hmem⟩
                        rw [hcs, hw4, htokm, ← h.2]
                        simp
                    · simp only [hy, if_false] at h
                      by_cases hy2 : y = '}'
                      · subst hy2
                        simp only [if_true, Except.ok.injEq, Prod.mk.injEq] at h
                        refine ⟨_, ?_, IsMembers.last k w1 w2 tokv w3 hchars hws1 hws2 hval
                          hws3⟩
                        rw [hcs, ← h.2]
                        simp
                      · simp [hy2] at h
              · simp [hx] at h
        · simp [hq] at h
    · intro depth s vs rest h
      rw [parseElements] at h
      cases hv : parseValue fuel depth s with
      | error e => simp [hv] at h
      | ok r =>
        obtain ⟨v, rest1⟩ := r
        simp only [hv] at h
        obtain ⟨tokv, htokv, hval⟩ := ihV _ _ _ _ hv
        obtain ⟨w, hw, hws⟩ := skipSpace_sound rest1
        cases hsk : skipSpace rest1 with
        | nil => simp [hsk] at h
        | cons y ys =>
          rw [hsk] at h hw
          simp only at h
          by_cases hy : y = ','
          · subst hy
            simp only [if_true] at h
            obtain ⟨w2, hw2, hws2⟩ := skipSpace_sound ys
            cases he : parseElements fuel depth (skipSpace ys) with
            | error e => simp [he] at h
            | ok r3 =>
              obtain ⟨vs', rest3⟩ := r3
              simp only [he, Except.ok.injEq, Prod.mk.injEq] at h
              obtain ⟨toke, htoke, hel⟩ := ihE _ _ _ _ he
              refine ⟨_, ?_, IsElements.more tokv w w2 toke hval hws hws2 hel⟩
              rw [htokv, hw, hw2, htoke, ← h.2]
              simp
          · simp only [hy, if_false] at h
            by_cases hy2 : y = ']'
            · subst hy2
              simp only [if_true, Except.ok.injEq, Prod.mk.injEq] at h
              refine ⟨_, ?_, IsElements.last tokv w hval hws⟩
              rw [htokv, hw, ← h.2]
              simp
            · simp [hy2] at h

/-- Every text the model of `json.Unmarshal` decodes is a JSON text of the grammar. -/
theorem parseJSON_sound (data : GoString) (v : JSON) (h : parseJSON data = .ok v) :
    IsJSONText data := by
  unfold parseJSON at h
  obtain ⟨w1, hw1, hws1⟩ := skipSpace_sound data
  cases hv : parseValue (2 * data.length + 1) 0 (skipSpace data) with
  | error e => simp [hv] at h
  | ok r =>
    obtain ⟨j, rest⟩ := r
    simp only [hv] at h
    obtain ⟨tok, htok, hval⟩ := (parse_sound _).1 _ _ _ _ hv
    obtain ⟨w2, hw2, hws2⟩ := skipSpace_sound rest
    by_cases hr : skipSpace rest = []
    · rw [hr, List.append_nil] at hw2
      exact ⟨w1, tok, w2, by rw [← hw2, ← htok, ← hw1], hws1, hval, hws2⟩
    · simp [hr] at h

/-- A text outside the grammar is not valid for the decoder. -/
theorem not_valid_of_not_grammar (data : GoString) (h : ¬ IsJSONText data) :
    Valid data = false := by
  unfold Valid
  cases hp : parseJSON data with
  | error e => rfl
  | ok v => exact absurd (parseJSON_sound data v hp) h

/-! ## The fuel of `parseJSON` is enough -/

theorem isInt_ne_nil (s : GoString) (h : IsInt s) : s ≠ [] := by
  rcases h with rfl | ⟨c, ds, rfl, _⟩ <;> simp

theorem isNumber_ne_nil (s : GoString) (h : IsNumber s) : s ≠ [] := by
  obtain ⟨sign, int, frac, exp, rfl, _, hi, _, _⟩ := h
  have := isInt_ne_nil int hi
  simp [this]

theorem isValue_ne_nil (s : GoString) (h : IsValue s) : s ≠ [] := by
  cases h with
  | number s hn => exact isNumber_ne_nil _ hn
  | _ => simp

theorem skipSpace_length_le (s : GoString) : (skipSpace s).length ≤ s.length := by
  obtain ⟨w, hw, _⟩ := skipSpace_sound s
  have := congrArg List.length hw
  simp only [List.length_append] at this
  omega

theorem parseValue_length (fuel depth : Nat) (s : GoString) (v : JSON) (rest : GoString)
    (h : parseValue fuel depth s = .ok (v, rest)) : rest.length < s.length := by
  obtain ⟨tok, htok, hval⟩ := (parse_sound fuel).1 _ _ _ _ h
  have hne := isValue_ne_nil tok hval
  have hpos : 0 < tok.length := List.length_pos.mpr hne
  have := congrArg List.length htok
  simp only [List.length_append] at this
  omega

theorem parseString_length (s t rest : GoString) (h : parseString s = some (t, rest)) :
    rest.length < s.length := by
  obtain ⟨body, hbody, _⟩ := parseString_sound _ _ _ h
  have := congrArg List.length hbody
  simp only [List.length_append, List.length_cons] at this
  omega

theorem parse_fuel_enough : ∀ fuel : Nat,
    (∀ depth s, 2 * s.length < fuel → parseValue fuel depth s ≠ .error .fuel) ∧
    (∀ depth s, 2 * s.length + 1 < fuel → parseMembers fuel depth s ≠ .error .fuel) ∧
    (∀ depth s, 2 * s.length + 1 < fuel → parseElements fuel depth s ≠ .error .fuel) := by
  intro fuel
  induction fuel with
  | zero =>
    refine ⟨?_, ?_, ?_⟩ <;> intro depth s hs <;> omega
  | succ fuel ih =>
    obtain ⟨ihV, ihM, ihE⟩ := ih
    refine ⟨?_, ?_, ?_⟩
    · intro depth s hs h
      cases s with
      | nil => simp [parseValue] at h
      | cons c cs =>
        rw [parseValue] at h
        simp only [List.length_cons] at hs
        by_cases hobj : c = '{'
        · subst hobj
          simp only [if_true] at h
          by_cases hdepth : depth + 1 > maxNestingDepth
          · simp [hdepth] at h
          · simp only [hdepth, if_false] at h
            have hlen := skipSpace_length_le cs
            cases hsk : skipSpace cs with
            | nil => simp [hsk] at h
            | cons x xs =>
              rw [hsk] at h hlen
              simp only at h
              by_cases hx : x = '}'
              · simp [hx] at h
              · simp only [hx, if_false] at h
                cases hm : parseMembers fuel (depth + 1) (x :: xs) with
                | error e =>
                  simp only [hm, Except.error.injEq] at h
                  subst h
                  exact ihM _ _ (by omega) hm
                | ok r => simp [hm] at h
        · simp only [hobj, if_false] at h
          by_cases harr : c = '['
          · subst harr
            simp only [if_true] at h
            by_cases hdepth : depth + 1 > maxNestingDepth
            · simp [hdepth] at h
            · simp only [hdepth, if_false] at h
              have hlen := skipSpace_length_le cs
              cases hsk : skipSpace cs with
              | nil => simp [hsk] at h
              | cons x xs =>
                rw [hsk] at h hlen
                simp only at h
                by_cases hx : x = ']'
                · simp [hx] at h
                · simp only [hx, if_false] at h
                  cases hm : parseElements fuel (depth + 1) (x :: xs) with
                  | error e =>
                    simp only [hm, Except.error.injEq] at h
                    subst h
                    exact ihE _ _ (by omega) hm
                  | ok r => simp [hm] at h
          · simp only [harr, if_false] at h
            by_cases hstr : c = '"'
            · subst hstr
              simp only [if_true] at h
              cases hp : parseString cs with
              | none => simp [hp] at h
              | some r => simp [hp] at h
            · simp only [hstr, if_false] at h
              split_ifs at h
              cases hnum : scanNumber (c :: cs) with
              | none => simp [hnum] at h
              | some rest' => simp [hnum] at h
    · intro depth s hs h
      cases s with
      | nil => simp [parseMembers] at h
      | cons c cs =>
        rw [parseMembers] at h
        simp only [List.length_cons] at hs
        by_cases hq : c = '"'
        · subst hq
          simp only [if_true] at h
          cases hp : parseString cs with
          | none => simp [hp] at h
          | some r =>
            obtain ⟨key, rest1⟩ := r
            simp only [hp] at h
            have hl1 := parseString_length _ _ _ hp
            have hl2 := skipSpace_length_le rest1
            cases hsk1 : skipSpace rest1 with
            | nil => simp [hsk1] at h
            | cons x xs =>
              rw [hsk1] at h hl2
              simp only [List.length_cons] at h hl2
              by_cases hx : x = ':'
              · subst hx
                simp only [if_true] at h
                have hl3 := skipSpace_length_le xs
                cases hv : parseValue fuel depth (skipSpace xs) with
                | error e =>
                  simp only [hv, Except.error.injEq] at h
                  subst h
                  exact ihV _ _ (by omega) hv
                | ok r2 =>
                  obtain ⟨v, rest2⟩ := r2
                  simp only [hv] at h
                  have hl4 := parseValue_length _ _ _ _ _ hv
                  have hl5 := skipSpace_length_le rest2
                  cases hsk3 : skipSpace rest2 with
                  | nil => simp [hsk3] at h
                  | cons y ys =>
                    rw [hsk3] at h hl5
                    simp only [List.length_cons] at h hl5
                    by_cases hy : y = ','
                    · subst hy
                      simp only [if_true] at h
                      have hl6 := skipSpace_length_le ys
                      cases hm : parseMembers fuel depth (skipSpace ys) with
                      | error e =>
                        simp only [hm, Except.error.injEq] at h
                        subst h
                        exact ihM _ _ (by omega) hm
                      | ok r3 => simp [hm] at h
                    · simp only [hy, if_false] at h
                      split_ifs at h
                      simp at h
              · simp [hx] at h
        · simp [hq] at h
    · intro depth s hs h
      rw [parseElements] at h
      cases hv : parseValue fuel depth s with
      | error e =>
        simp only [hv, Except.error.injEq] at h
        subst h
        exact ihV _ _ (by omega) hv
      | ok r =>
        obtain ⟨v, rest1⟩ := r
        simp only [hv] at h
        have hl1 := parseValue_length _ _ _ _ _ hv
        have hl2 := skipSpace_length_le rest1
        cases hsk : skipSpace rest1 with
        | nil => simp [hsk] at h
        | cons y ys =>
          rw [hsk] at h hl2
          simp only [List.length_cons] at h hl2
          by_cases hy : y = ','
          · subst hy
            simp only [if_true] at h
            have hl3 := skipSpace_length_le ys
            cases he : parseElements fuel depth (skipSpace ys) with
            | error e =>
              simp only [he, Except.error.injEq] at h
              subst h
              exact ihE _ _ (by omega) he
            | ok r3 => simp [he] at h
          · simp only [hy, if_false] at h
            split_ifs at h
            simp at h

/-- The fuel `parseJSON` starts with is never used up: a text is refused only for
its form. -/
theorem parseJSON_ne_fuel (data : GoString) : parseJSON data ≠ .error .fuel := by
  intro h
  unfold parseJSON at h
  have hlen := skipSpace_length_le data
  cases hv : parseValue (2 * data.length + 1) 0 (skipSpace data) with
  | error e =>
    simp only [hv, Except.error.injEq] at h
    subst h
    exact (parse_fuel_enough _).1 _ _ (by omega) hv
  | ok r =>
    obtain ⟨j, rest⟩ := r
    simp only [hv] at h
    split_ifs at h
    simp at h

/-! ## Texts that are not JSON texts -/

theorem isDigits_getLast (ds : GoString) (hne : ds ≠ []) (h : IsDigits ds) :
    ∃ init c, ds = init ++ [c] ∧ '0' ≤ c ∧ c ≤ '9' := by
  refine ⟨ds.dropLast, ds.getLast hne, (List.dropLast_append_getLast hne).symm, ?_⟩
  exact h _ (List.getLast_mem hne)

theorem isNumber_last (s : GoString) (h : IsNumber s) :
    ∃ init c, s = init ++ [c] ∧ '0' ≤ c ∧ c ≤ '9' := by
  obtain ⟨sign, int, frac, exp, rfl, _, hi, hf, he⟩ := h
  rcases he with rfl | ⟨e, sg, ds, rfl, _, _, hne, hds⟩
  · rcases hf with rfl | ⟨ds, rfl, hne, hds⟩
    · rcases hi with rfl | ⟨c, ds, rfl, h1, h9, hds⟩
      · exact ⟨sign, '0', by simp, by decide, by decide⟩
      · by_cases hne : ds = []
        · subst hne
          exact ⟨sign, c, by simp, le_trans (by decide) h1, h9⟩
        · obtain ⟨init, x, hx, hd⟩ := isDigits_getLast ds hne hds
          exact ⟨sign ++ (c :: init), x, by simp [hx], hd⟩
    · obtain ⟨init, x, hx, hd⟩ := isDigits_getLast ds hne hds
      exact ⟨sign ++ (int ++ ('.' :: init)), x, by simp [hx], hd⟩
  · obtain ⟨init, x, hx, hd⟩ := isDigits_getLast ds hne hds
    exact ⟨sign ++ (int ++ (frac ++ (e :: (sg ++ init)))), x, by simp [hx], hd⟩

/-- A value of the grammar ends with `l`, `e`, a quotation mark, a closing brace or
bracket, or a digit. -/
theorem isValue_last (s : GoString) (h : IsValue s) :
    ∃ init c, s = init ++ [c] ∧
      (c = 'l' ∨ c = 'e' ∨ c = '"' ∨ c = '}' ∨ c = ']' ∨ ('0' ≤ c ∧ c ≤ '9')) := by
  cases h with
  | null => exact ⟨['n', 'u', 'l'], 'l', rfl, by simp⟩
  | true => exact ⟨['t', 'r', 'u'], 'e', rfl, by simp⟩
  | false => exact ⟨['f', 'a', 'l', 's'], 'e', rfl, by simp⟩
  | number s hn =>
    obtain ⟨init, c, hc, hd⟩ := isNumber_last _ hn
    exact ⟨init, c, hc, by simp [hd]⟩
  | string b hb => exact ⟨'"' :: b, '"', by simp, by simp⟩
  | emptyObject ws hws => exact ⟨'{' :: ws, '}', by simp, by simp⟩
  | object ws ms hws hms => exact ⟨'{' :: (ws ++ ms), '}', by simp, by simp⟩
  | emptyArray ws hws => exact ⟨'[' :: ws, ']', by simp, by simp⟩
  | array ws es hws hes => exact ⟨'[' :: (ws ++ es), ']', by simp, by simp⟩

/-- A value of the grammar starts with `n`, `t`, `f`, a quotation mark, an opening
brace or bracket, a minus sign or a digit. -/
theorem isValue_first (s : GoString) (h : IsValue s) :
    ∃ c cs, s = c :: cs ∧
      (c = 'n' ∨ c = 't' ∨ c = 'f' ∨ c = '"' ∨ c = '{' ∨ c = '[' ∨ c = '-' ∨
        ('0' ≤ c ∧ c ≤ '9')) := by
  cases h with
  | null => exact ⟨'n', _, rfl, by simp⟩
  | true => exact ⟨'t', _, rfl, by simp⟩
  | false => exact ⟨'f', _, rfl, by simp⟩
  | number s hn =>
    obtain ⟨sign, int, frac, exp, rfl, hs, hi, _, _⟩ := hn
    rcases hs with rfl | rfl
    · rcases hi with rfl | ⟨c, ds, rfl, h1, h9, _⟩
      · exact ⟨'0', _, rfl, by simp⟩
      · exact ⟨c, _, rfl, by simp [le_trans (by decide : '0' ≤ '1') h1, h9]⟩
    · exact ⟨'-', _, rfl, by simp⟩
  | string b hb => exact ⟨'"', _, rfl, by simp⟩
  | emptyObject ws hws => exact ⟨'{', _, rfl, by simp⟩
  | object ws ms hws hms => exact ⟨'{', _, rfl, by simp⟩
  | emptyArray ws hws => exact ⟨'[', _, rfl, by simp⟩
  | array ws es hws hes => exact ⟨'[', _, rfl, by simp⟩

/-- The empty text is not a JSON text. -/
theorem not_isJSONText_nil : ¬ IsJSONText [] := by
  rintro ⟨w1, v, w2, h, _, hv, _⟩
  have hne := isValue_ne_nil v hv
  have := congrArg List.length h
  have hpos : 0 < v.length := List.length_pos.mpr hne
  simp only [List.length_nil, List.length_append] at this
  omega

/-- A text whose first character is neither white space nor the start of a value is
not a JSON text. -/
theorem not_isJSONText_of_first (c : Char) (cs : GoString)
    (hws : ¬ (c = ' ' ∨ c = '\t' ∨ c = '\n' ∨ c = '\r'))
    (hc : ¬ (c = 'n' ∨ c = 't' ∨ c = 'f' ∨ c = '"' ∨ c = '{' ∨ c = '[' ∨ c = '-' ∨
      ('0' ≤ c ∧ c ≤ '9'))) : ¬ IsJSONText (c :: cs) := by
  rintro ⟨w1, v, w2, h, hw1, hv, _⟩
  cases w1 with
  | nil =>
    obtain ⟨x, xs, rfl, hx⟩ := isValue_first v hv
    simp only [List.nil_append, List.cons_append, List.cons.injEq] at h
    rw [← h.1] at hx
    exact hc hx
  | cons x xs =>
    simp only [List.cons_append, List.cons.injEq] at h
    have := hw1 x (List.mem_cons_self _ _)
    rw [← h.1] at this
    exact hws this

/-- A text whose last character is neither white space nor the end of a value is not
a JSON text. -/
theorem not_isJSONText_of_last (init : GoString) (c : Char)
    (hws : ¬ (c = ' ' ∨ c = '\t' ∨ c = '\n' ∨ c = '\r'))
    (hc : ¬ (c = 'l' ∨ c = 'e' ∨ c = '"' ∨ c = '}' ∨ c = ']' ∨ ('0' ≤ c ∧ c ≤ '9'))) :
    ¬ IsJSONText (init ++ [c]) := by
  rintro ⟨w1, v, w2, h, _, hv, hw2⟩
  by_cases hne : w2 = []
  · subst hne
    obtain ⟨i, x, rfl, hx⟩ := isValue_last v hv
    have h2 : init ++ [c] = (w1 ++ i) ++ [x] := by simp [h]
    have := List.append_inj' h2 rfl
    simp only [List.cons.injEq, and_true] at this
    rw [← this.2] at hx
    exact hc hx
  · have h2 : init ++ [c] = (w1 ++ (v ++ w2.dropLast)) ++ [w2.getLast hne] := by
      rw [h]
      simp only [List.append_assoc]
      rw [List.dropLast_append_getLast hne]
    have := List.append_inj' h2 rfl
    simp only [List.cons.injEq, and_true] at this
    have hmem := hw2 _ (List.getLast_mem hne)
    rw [← this.2] at hmem
    exact hws hmem

/-- What `parseEventDetails` returns when the decoder's validity check refuses the
response text. -/
theorem parseEventDetails_of_invalid (w : World EventDetails)
    (message claudeAPIKey : GoString) (content : List GoString)
    (hw : w.messagesCreate claudeAPIKey 250 (prompt message) = .ok content)
    (hbad : Valid (firstText content) = false) :
    parseEventDetails w message claudeAPIKey =
      ({}, some (unmarshalFailure (w.jsonErrorString .syntaxError) (firstText content))) := by
  have hu : Unmarshal EventDetails.structType (firstText content) {} =
      ({}, some .syntaxError) := by
    unfold Valid at hbad
    unfold Unmarshal
    cases hp : parseJSON (firstText content) with
    | error e => rfl
    | ok v => rw [hp] at hbad; simp at hbad
  simp only [parseEventDetails, hw, hu]

/-! ## The decoder on sample texts -/

/-- Keys match field names whatever their case, an unknown key is skipped with its
whole value, white space is allowed around every token, the last of two equal keys
wins, `null` leaves a field as it is. -/
theorem decodeText_accepts :
    decodeText "\x7b\"TITLE\":\"a\",\"Date\":\"b\"\x7d" =
      ({ Title := "a".toList, Date := "b".toList }, none) ∧
    decodeText "\x7b\"x\":\x7b\"y\":[1,-2.5e+3,\x7b\"z\":null\x7d,true]\x7d,\"time\":\"t\"\x7d" =
      ({ Time := "t".toList }, none) ∧
    decodeText " \x7b \"title\" : \"a\" ,\n\t\"duration\" : \"1h\" \x7d\r\n" =
      ({ Title := "a".toList, Duration := "1h".toList }, none) ∧
    decodeText "\x7b\"title\":\"a\",\"title\":\"b\"\x7d" = ({ Title := "b".toList }, none) ∧
    decodeText "\x7b\"title\":\"a\",\"title\":null\x7d" = ({ Title := "a".toList }, none) := by
  refine ⟨by decide, by decide, by decide, by decide, by decide⟩

/-- Escapes are decoded: the one-letter escapes, `\u` with four digits, a surrogate
pair as one character, a lone surrogate as the replacement character. -/
theorem decodeText_escapes :
    decodeText "\x7b\"title\":\"a\\\"b\\\\c\\/d\\n\\u0041\\ud83d\\ude00\\ud83dx\"\x7d" =
      ({ Title := "a\"b\\c/d\nA".toList ++ [Char.ofNat 0x1F600, Char.ofNat 0xFFFD, 'x'] },
        none) := by
  decide

/-- Refused texts: a value of the wrong kind under a field name (the fields decoded
before it stay in the struct `json.Unmarshal` was given), a top-level value that is
not an object, text after the value, a trailing comma, a leading zero, a raw control
character in a string, an unknown escape, a truncated text, the empty text. -/
theorem decodeText_refuses :
    decodeText "\x7b\"title\":\"a\",\"date\":5,\"time\":[]\x7d" =
      ({ Title := "a".toList }, some (.unmarshalType "number".toList (some "Date".toList))) ∧
    decodeText "[\"a\"]" = ({}, some (.unmarshalType "array".toList none)) ∧
    decodeText "\"a\"" = ({}, some (.unmarshalType "string".toList none)) ∧
    decodeText "12" = ({}, some (.unmarshalType "number".toList none)) ∧
    decodeText "true" = ({}, some (.unmarshalType "bool".toList none)) ∧
    decodeText "\x7b\x7d x" = ({}, some .syntaxError) ∧
    decodeText "\x7b\"title\":\"a\",\x7d" = ({}, some .syntaxError) ∧
    decodeText "\x7b\"a\":01\x7d" = ({}, some .syntaxError) ∧
    decodeText "\x7b\"title\":\"a\nb\"\x7d" = ({}, some .syntaxError) ∧
    decodeText "\x7b\"title\":\"a\\qb\"\x7d" = ({}, some .syntaxError) ∧
    decodeText "\x7b\"title\":\"a\"" = ({}, some .syntaxError) ∧
    decodeText "" = ({}, some .syntaxError) := by
  refine ⟨by decide, by decide, by decide, by decide, by decide, by decide, by decide,
    by decide, by decide, by decide, by decide, by decide⟩

/-! ## The claims -/

/-- C1: for every text that holds `@`, the text `listenForMentions` hands to
`parseEventDetails` is the part after the first `@`: the text is
`pre ++ "@" ++ messageContent text` with no `@` in `pre`, any such split of the
text yields the same candidate, and the one call of `parseEventDetails` in the pass
(in `whatsapp.go` and in `main.go`) has that candidate as its argument. -/
theorem C1_candidate_is_text_after_first_at (w : World EventDetails)
    (v : World MainGo.EventDetails) (claudeAPIKey text : GoString)
    (hw : w.readText = .ok text) (hv : v.readText = .ok text) (hat : '@' ∈ text) :
    (∃ pre, text = pre ++ '@' :: messageContent text ∧ '@' ∉ pre) ∧
    (∀ pre cand, text = pre ++ '@' :: cand → '@' ∉ pre → messageContent text = cand) ∧
    (loopBody w claudeAPIKey).1.filter Event.isParseCall =
      [.parseEventDetails (messageContent text) claudeAPIKey] ∧
    (MainGo.loopBody v claudeAPIKey).1.filter Event.isParseCall =
      [.parseEventDetails (messageContent text) claudeAPIKey] := by
  refine ⟨messageContent_split text hat, ?_, ?_, ?_⟩
  · intro pre cand hs hpre
    obtain ⟨pre2, hs2, hpre2⟩ := messageContent_split text hat
    exact (split_unique pre2 pre _ cand hpre2 hpre (hs2.symm.trans hs)).2
  · rw [loopBody_of_mention w claudeAPIKey text hw hat]
    rcases parseEventDetails w (messageContent text) claudeAPIKey with ⟨ev, _ | err⟩
    · by_cases hm : detailsMissing ev = true
      · simp [hm, List.filter_append, parseEventDetailsTrace, Event.isParseCall]
      · cases hs : w.storeEvent (extractUserIdentifier text) ev <;>
          simp [hm, hs, List.filter_append, parseEventDetailsTrace, printDetails,
            Event.isParseCall]
    · simp [List.filter_append, parseEventDetailsTrace, Event.isParseCall]
  · rw [MainGo.earlier_loopBody_of_mention v claudeAPIKey text hv hat]
    rcases MainGo.parseEventDetails v (messageContent text) claudeAPIKey with ⟨ev, _ | err⟩
    · by_cases hm : MainGo.detailsMissing ev = true
      · simp [hm, List.filter_append, MainGo.parseEventDetailsTrace, Event.isParseCall]
      · simp [hm, List.filter_append, MainGo.parseEventDetailsTrace, MainGo.printDetails,
          Event.isParseCall]
    · simp [List.filter_append, MainGo.parseEventDetailsTrace, Event.isParseCall]

/-- C1 at the text `a@b@c`: the candidate is `b@c`, the later `@` staying inside. -/
theorem C1_candidate_is_text_after_first_at_witness :
    '@' ∈ "a@b@c".toList ∧ messageContent "a@b@c".toList = "b@c".toList ∧
    (loopBody (worldOf "a@b@c" samResponse none) someKey).1.filter Event.isParseCall =
      [.parseEventDetails "b@c".toList someKey] :=
  ⟨by decide, by decide,
    (C1_candidate_is_text_after_first_at (worldOf "a@b@c" samResponse none)
      (MainGo.worldOf "a@b@c" samResponse) someKey "a@b@c".toList rfl rfl (by decide)).2.2.1⟩

/-- C2: for a text without `@`, a pass of `listenForMentions` only sleeps and reads:
it starts no reply (neither `respondWithError` nor `respondWithSuccess`), types
nothing into the page, does not call `parseEventDetails` and sends no request to the
model, whatever the model and the store would answer. -/
theorem C2_no_trigger_no_reply (w : World EventDetails) (claudeAPIKey text : GoString)
    (hw : w.readText = .ok text) (hat : '@' ∉ text) :
    loopBody w claudeAPIKey = ([.Sleep 5, .Run [.Text messageSelector]], .next) ∧
    (loopBody w claudeAPIKey).1.filter Event.isReply = [] ∧
    (loopBody w claudeAPIKey).1.filter Event.isTyping = [] ∧
    (loopBody w claudeAPIKey).1.filter Event.isParseCall = [] ∧
    (loopBody w claudeAPIKey).1.filter Event.isModelCall = [] ∧
    (loopBody w claudeAPIKey).1.filter Event.isStore = [] := by
  rw [loopBody_of_no_mention w claudeAPIKey text hw hat]
  exact ⟨rfl, rfl, rfl, rfl, rfl, rfl⟩

/-- C2 at the text `see you tomorrow`, with a model that would answer the complete
record and a store that would fail. -/
theorem C2_no_trigger_no_reply_witness :
    '@' ∉ "see you tomorrow".toList ∧
    (loopBody (worldOf "see you tomorrow" samResponse (some "down".toList)) someKey).1.filter
      Event.isReply = [] :=
  ⟨by decide,
    (C2_no_trigger_no_reply (worldOf "see you tomorrow" samResponse (some "down".toList))
      someKey "see you tomorrow".toList rfl (by decide)).2.1⟩

/-- C3: the completeness test of `listenForMentions` is a total function of the
record; it accepts exactly when title, date, time and duration are all non-empty, and
its verdict does not depend on the recurrence. The record with an empty title is
refused; the record `t`, `d`, `t2`, `1h` is accepted for every recurrence. -/
theorem C3_complete_iff_four_fields_nonempty :
    (∀ e : EventDetails, detailsMissing e = false ↔
      e.Title ≠ [] ∧ e.Date ≠ [] ∧ e.Time ≠ [] ∧ e.Duration ≠ []) ∧
    (∀ (e : EventDetails) (r : GoString),
      detailsMissing { e with Recurrence := r } = detailsMissing e) ∧
    (∀ r : GoString, detailsMissing
      { Title := [], Date := "x".toList, Time := "x".toList, Duration := "x".toList,
        Recurrence := r } = true) ∧
    (∀ r : GoString, detailsMissing
      { Title := "t".toList, Date := "d".toList, Time := "t2".toList,
        Duration := "1h".toList, Recurrence := r } = false) := by
  refine ⟨?_, ?_, ?_, ?_⟩
  · intro e
    simp [detailsMissing, and_assoc]
  · intro e r
    rfl
  · intro r
    rfl
  · intro r
    rfl

/-- C4: when the model's response text is the JSON object with the string values
`t`, `d`, `tm`, `du`, `r` under `title`, `date`, `time`, `duration`, `recurrence`,
`parseEventDetails` succeeds with the record holding exactly these five values, and
the confirmation text built from that record holds each of the five values as it
is, the recurrence too (also when it is empty). -/
theorem C4_round_trip (w : World EventDetails) (message claudeAPIKey : GoString)
    (t d tm du r : GoString) (more : List GoString)
    (hw : w.messagesCreate claudeAPIKey 250 (prompt message) =
      .ok (eventJSON t d tm du r :: more)) :
    parseEventDetails w message claudeAPIKey =
      ({ Title := t, Date := d, Time := tm, Duration := du, Recurrence := r }, none) ∧
    t <:+: successText (parseEventDetails w message claudeAPIKey).1 ∧
    d <:+: successText (parseEventDetails w message claudeAPIKey).1 ∧
    tm <:+: successText (parseEventDetails w message claudeAPIKey).1 ∧
    du <:+: successText (parseEventDetails w message claudeAPIKey).1 ∧
    r <:+: successText (parseEventDetails w message claudeAPIKey).1 := by
  have h : parseEventDetails w message claudeAPIKey =
      ({ Title := t, Date := d, Time := tm, Duration := du, Recurrence := r }, none) := by
    simp only [parseEventDetails, hw, firstText, unmarshal_eventJSON]
  rw [h]
  exact ⟨rfl, successText_contains
    { Title := t, Date := d, Time := tm, Duration := du, Recurrence := r }⟩

/-- C4 at the response of the specification's example: title `Sam's Birthday`, date
`2025-03-01`, time `14:00`, duration `1h`, recurrence `annually`. -/
theorem C4_round_trip_witness :
    eventJSON "Sam\x27s Birthday".toList "2025-03-01".toList "14:00".toList "1h".toList
      "annually".toList = samResponse.toList ∧
    parseEventDetails (worldOf "@party" samResponse none) "party".toList someKey =
      (samEvent, none) ∧
    "annually".toList <:+: successText samEvent := by
  have hj : eventJSON "Sam\x27s Birthday".toList "2025-03-01".toList "14:00".toList
      "1h".toList "annually".toList = samResponse.toList := by decide
  have h := C4_round_trip (worldOf "@party" samResponse none) "party".toList someKey
    "Sam\x27s Birthday".toList "2025-03-01".toList "14:00".toList "1h".toList
    "annually".toList [] (by rw [hj]; rfl)
  refine ⟨hj, h.1, ?_⟩
  have h5 := h.2.2.2.2.2
  rw [h.1] at h5
  exact h5

/-- C5: when the model's response text is not well-formed JSON (not a JSON text of
the grammar: truncated, not JSON at all, or the empty text that stands for a
response without content block), `parseEventDetails` returns an error whose message
holds the raw response text, at its end, and the record returned with the error is
the all-empty record: nothing of a partly decoded record is returned. -/
theorem C5_malformed_json_error (w : World EventDetails) (message claudeAPIKey : GoString)
    (content : List GoString)
    (hw : w.messagesCreate claudeAPIKey 250 (prompt message) = .ok content)
    (hbad : ¬ IsJSONText (firstText content)) :
    parseEventDetails w message claudeAPIKey =
      ({ Title := [], Date := [], Time := [], Duration := [], Recurrence := [] },
       some ("failed to unmarshal JSON: ".toList ++ w.jsonErrorString .syntaxError ++
         ", raw response: ".toList ++ firstText content)) ∧
    (∀ err, (parseEventDetails w message claudeAPIKey).2 = some err →
      firstText content <:+: err) := by
  have h := parseEventDetails_of_invalid w message claudeAPIKey content hw
    (not_valid_of_not_grammar _ hbad)
  rw [h]
  refine ⟨rfl, ?_⟩
  intro err herr
  simp only [Option.some.injEq] at herr
  subst herr
  exact ⟨"failed to unmarshal JSON: ".toList ++ w.jsonErrorString .syntaxError ++
    ", raw response: ".toList, [], by simp [unmarshalFailure]⟩

/-- C5 at a truncated response; a response that is not JSON and the empty text are
not JSON texts either. -/
theorem C5_malformed_json_error_witness :
    ¬ IsJSONText (firstText ["\x7b\"title\":\"Sam".toList]) ∧
    ¬ IsJSONText "I cannot help with that.".toList ∧
    ¬ IsJSONText (firstText []) ∧
    parseEventDetails (worldOf "@party" "\x7b\"title\":\"Sam" none) "party".toList someKey =
      ({}, some "failed to unmarshal JSON: invalid, raw response: \x7b\"title\":\"Sam".toList) :=
  have hbad : ¬ IsJSONText (firstText ["\x7b\"title\":\"Sam".toList]) :=
    not_isJSONText_of_last "\x7b\"title\":\"Sa".toList 'm' (by decide) (by decide)
  ⟨hbad,
    not_isJSONText_of_first 'I' " cannot help with that.".toList (by decide) (by decide),
    not_isJSONText_nil,
    (C5_malformed_json_error (worldOf "@party" "\x7b\"title\":\"Sam" none) "party".toList
      someKey ["\x7b\"title\":\"Sam".toList] rfl hbad).1⟩

/-- C6 as stated fails when the store fails: the text `@party` holds `@`, the model
answers the complete record of the round-trip example, `parseEventDetails` succeeds
with it, and with a failing `storeEvent` the one reply of the pass is
`respondWithError` with the could-not-store text; no success reply is sent. -/
theorem C6_store_failure_counterexample :
    '@' ∈ "@party".toList ∧
    parseEventDetails (worldOf "@party" samResponse (some "redis: connection refused".toList))
      (messageContent "@party".toList) someKey = (samEvent, none) ∧
    (samEvent.Title ≠ [] ∧ samEvent.Date ≠ [] ∧ samEvent.Time ≠ [] ∧
      samEvent.Duration ≠ []) ∧
    (loopBody (worldOf "@party" samResponse (some "redis: connection refused".toList))
      someKey).1.filter Event.isReply = [.respondWithError notStoredText] := by
  refine ⟨by decide, by decide, by decide, by decide⟩

/-- C6, amended: in a pass whose text holds `@`, where `parseEventDetails` succeeds
with a complete record, `storeEvent` is called once with that record; when it
succeeds the one reply is `respondWithSuccess` with the confirmation, which holds
all five fields, recurrence included, and no error reply is sent; when it fails the
one reply is `respondWithError` with the could-not-store text. -/
theorem C6_complete_record_reply (w : World EventDetails) (claudeAPIKey text : GoString)
    (ev : EventDetails) (hw : w.readText = .ok text) (hat : '@' ∈ text)
    (hp : parseEventDetails w (messageContent text) claudeAPIKey = (ev, none))
    (hc : ev.Title ≠ [] ∧ ev.Date ≠ [] ∧ ev.Time ≠ [] ∧ ev.Duration ≠ []) :
    (loopBody w claudeAPIKey).1.filter Event.isStore =
      [.storeEvent (extractUserIdentifier text) ev] ∧
    (w.storeEvent (extractUserIdentifier text) ev = none →
      (loopBody w claudeAPIKey).1.filter Event.isReply =
        [.respondWithSuccess (successText ev)] ∧
      (loopBody w claudeAPIKey).1.filter Event.isTyping =
        [.Run [.SendKeys inputSelector (successText ev), .Click sendSelector]] ∧
      ev.Title <:+: successText ev ∧ ev.Date <:+: successText ev ∧
      ev.Time <:+: successText ev ∧ ev.Duration <:+: successText ev ∧
      ev.Recurrence <:+: successText ev) ∧
    (∀ err, w.storeEvent (extractUserIdentifier text) ev = some err →
      (loopBody w claudeAPIKey).1.filter Event.isReply =
        [.respondWithError notStoredText]) := by
  have hd : detailsMissing ev = false :=
    (detailsMissing_eq_false_iff ev).mpr hc
  rw [loopBody_of_mention w claudeAPIKey text hw hat, hp]
  refine ⟨?_, ?_, ?_⟩
  · cases hs : w.storeEvent (extractUserIdentifier text) ev <;>
      simp [hd, hs, List.filter_append, parseEventDetailsTrace, printDetails, Event.isStore]
  · intro hs
    refine ⟨?_, ?_, successText_contains ev⟩ <;>
      simp [hd, hs, List.filter_append, parseEventDetailsTrace, printDetails, Event.isReply,
        Event.isTyping, replyActions]
  · intro err hs
    simp [hd, hs, List.filter_append, parseEventDetailsTrace, Event.isReply]

/-- C6, amended, at the text `@party` with the complete record of the round-trip
example and a store that succeeds. -/
theorem C6_complete_record_reply_witness :
    '@' ∈ "@party".toList ∧
    parseEventDetails (worldOf "@party" samResponse none)
      (messageContent "@party".toList) someKey = (samEvent, none) ∧
    (loopBody (worldOf "@party" samResponse none) someKey).1.filter Event.isReply =
      [.respondWithSuccess (successText samEvent)] :=
  ⟨by decide, by decide,
    ((C6_complete_record_reply (worldOf "@party" samResponse none) someKey "@party".toList
      samEvent rfl (by decide) (by decide) (by decide)).2.1 rfl).1⟩

/-- C7 as stated fails on well-formed JSON outside the field set: for the responses
`{}`, `null` and `{"foo":"bar"}`, `parseEventDetails` returns the all-empty record
and no error. -/
theorem C7_accepts_other_json_counterexample :
    parseEventDetails (worldOf "@party" "\x7b\x7d" none) "party".toList someKey =
      ({ Title := [], Date := [], Time := [], Duration := [], Recurrence := [] }, none) ∧
    parseEventDetails (worldOf "@party" "null" none) "party".toList someKey =
      ({ Title := [], Date := [], Time := [], Duration := [], Recurrence := [] }, none) ∧
    parseEventDetails (worldOf "@party" "\x7b\"foo\":\"bar\"\x7d" none) "party".toList
      someKey =
      ({ Title := [], Date := [], Time := [], Duration := [], Recurrence := [] }, none) := by
  refine ⟨by decide, by decide, by decide⟩

/-- C7, amended: `parseEventDetails` signals a parse error carrying the raw text,
with the all-empty record, exactly for the response texts `json.Unmarshal` refuses:
text that is not well-formed JSON, a top-level value that is neither an object nor
`null`, or an object in which the value under one of the five field names is neither
a string nor `null`. Every other response is decoded without error; among those are
`{}`, `null` and an object with only unrelated keys. -/
theorem C7_parse_error_iff_refused (w : World EventDetails)
    (message claudeAPIKey : GoString) (content : List GoString)
    (hw : w.messagesCreate claudeAPIKey 250 (prompt message) = .ok content) :
    (refused EventDetails.structType (firstText content) = true →
      ∃ e : JsonError, parseEventDetails w message claudeAPIKey =
        ({ Title := [], Date := [], Time := [], Duration := [], Recurrence := [] },
         some ("failed to unmarshal JSON: ".toList ++ w.jsonErrorString e ++
           ", raw response: ".toList ++ firstText content))) ∧
    (refused EventDetails.structType (firstText content) = false →
      parseEventDetails w message claudeAPIKey =
        ((Unmarshal EventDetails.structType (firstText content) {}).1, none)) ∧
    (¬ IsJSONText (firstText content) →
      refused EventDetails.structType (firstText content) = true) ∧
    refused EventDetails.structType "\x7b\x7d".toList = false ∧
    refused EventDetails.structType "null".toList = false ∧
    refused EventDetails.structType "\x7b\"foo\":\"bar\"\x7d".toList = false ∧
    refused EventDetails.structType "[]".toList = true ∧
    refused EventDetails.structType "\x7b\"title\":5\x7d".toList = true := by
  have hi := unmarshal_error_iff EventDetails.structType (firstText content) {}
  refine ⟨?_, ?_, ?_, by decide, by decide, by decide, by decide, by decide⟩
  · intro hr
    rw [hr] at hi
    rcases hu : Unmarshal EventDetails.structType (firstText content) {} with ⟨v, _ | e⟩
    · rw [hu] at hi
      simp at hi
    · refine ⟨e, ?_⟩
      simp only [parseEventDetails, hw, hu]
      rfl
  · intro hr
    rw [hr] at hi
    rcases hu : Unmarshal EventDetails.structType (firstText content) {} with ⟨v, _ | e⟩
    · simp only [parseEventDetails, hw, hu]
    · rw [hu] at hi
      simp at hi
  · intro hg
    have hv := not_valid_of_not_grammar _ hg
    unfold Valid at hv
    unfold refused
    cases hp : parseJSON (firstText content) with
    | error e => rfl
    | ok j => rw [hp] at hv; simp at hv

/-- C7, amended, at a response whose date is a number: the title already decoded is
not returned. -/
theorem C7_parse_error_iff_refused_witness :
    refused EventDetails.structType
      (firstText ["\x7b\"title\":\"a\",\"date\":5\x7d".toList]) = true ∧
    parseEventDetails (worldOf "@party" "\x7b\"title\":\"a\",\"date\":5\x7d" none)
      "party".toList someKey =
      ({}, some ("failed to unmarshal JSON: invalid, raw response: " ++
        "\x7b\"title\":\"a\",\"date\":5\x7d").toList) ∧
    (∃ e : JsonError,
      parseEventDetails (worldOf "@party" "\x7b\"title\":\"a\",\"date\":5\x7d" none)
        "party".toList someKey =
        ({ Title := [], Date := [], Time := [], Duration := [], Recurrence := [] },
         some ("failed to unmarshal JSON: ".toList ++
           (worldOf "@party" "\x7b\"title\":\"a\",\"date\":5\x7d" none).jsonErrorString e ++
           ", raw response: ".toList ++
           firstText ["\x7b\"title\":\"a\",\"date\":5\x7d".toList]))) :=
  ⟨by decide, by decide,
    (C7_parse_error_iff_refused (worldOf "@party" "\x7b\"title\":\"a\",\"date\":5\x7d" none)
      "party".toList someKey ["\x7b\"title\":\"a\",\"date\":5\x7d".toList] rfl).1
      (by decide)⟩

/-- C8: in a pass whose text holds `@`, where `parseEventDetails` succeeds with a
record one of whose title, date, time, duration is empty, `listenForMentions` sends
the fixed missing-details reply through `respondWithError`; that text names title,
date, time and duration and does not name recurrence; no success reply is sent and
`storeEvent` is not called. -/
theorem C8_incomplete_record_missing_fields_reply (w : World EventDetails)
    (claudeAPIKey text : GoString) (ev : EventDetails)
    (hw : w.readText = .ok text) (hat : '@' ∈ text)
    (hp : parseEventDetails w (messageContent text) claudeAPIKey = (ev, none))
    (hm : ev.Title = [] ∨ ev.Date = [] ∨ ev.Time = [] ∨ ev.Duration = []) :
    (loopBody w claudeAPIKey).1 =
      [.Sleep 5, .Run [.Text messageSelector]] ++
        parseEventDetailsTrace (messageContent text) claudeAPIKey ++
        respondWithError w missingDetailsText ∧
    (loopBody w claudeAPIKey).1.filter Event.isReply = [.respondWithError missingDetailsText] ∧
    (loopBody w claudeAPIKey).1.filter Event.isTyping =
      [.Run [.SendKeys inputSelector missingDetailsText, .Click sendSelector]] ∧
    (loopBody w claudeAPIKey).1.filter Event.isStore = [] ∧
    "title".toList <:+: missingDetailsText ∧ "date".toList <:+: missingDetailsText ∧
    "time".toList <:+: missingDetailsText ∧ "duration".toList <:+: missingDetailsText ∧
    ¬ "recurrence".toList <:+: missingDetailsText := by
  have hd : detailsMissing ev = true := (detailsMissing_iff ev).mpr hm
  have hb : (loopBody w claudeAPIKey).1 =
      [.Sleep 5, .Run [.Text messageSelector]] ++
        parseEventDetailsTrace (messageContent text) claudeAPIKey ++
        respondWithError w missingDetailsText := by
    rw [loopBody_of_mention w claudeAPIKey text hw hat, hp]
    simp [hd]
  refine ⟨hb, ?_, ?_, ?_, ?_, ?_, ?_, ?_, ?_⟩
  · rw [hb]
    simp [List.filter_append, parseEventDetailsTrace, Event.isReply]
  · rw [hb]
    simp [List.filter_append, parseEventDetailsTrace, Event.isTyping, replyActions]
  · rw [hb]
    simp [List.filter_append, parseEventDetailsTrace, Event.isStore]
  · exact ⟨"Sorry, I need the event ".toList,
      ", date, time, and duration to create the event.".toList, by decide⟩
  · exact ⟨"Sorry, I need the event title, ".toList,
      ", time, and duration to create the event.".toList, by decide⟩
  · exact ⟨"Sorry, I need the event title, date, ".toList,
      ", and duration to create the event.".toList, by decide⟩
  · exact ⟨"Sorry, I need the event title, date, time, and ".toList,
      " to create the event.".toList, by decide⟩
  · decide

/-- C8 at the text `@lunch at noon` with a model response whose date is empty. -/
theorem C8_incomplete_record_missing_fields_reply_witness :
    '@' ∈ "@lunch at noon".toList ∧
    parseEventDetails (worldOf "@lunch at noon" noDateResponse none)
      (messageContent "@lunch at noon".toList) someKey = (noDateEvent, none) ∧
    (loopBody (worldOf "@lunch at noon" noDateResponse none) someKey).1.filter Event.isReply =
      [.respondWithError missingDetailsText] ∧
    (loopBody (worldOf "@lunch at noon" noDateResponse none) someKey).1.filter Event.isStore =
      [] :=
  have h := C8_incomplete_record_missing_fields_reply
    (worldOf "@lunch at noon" noDateResponse none) someKey "@lunch at noon".toList noDateEvent
    rfl (by decide) (by decide) (Or.inr (Or.inl rfl))
  ⟨by decide, by decide, h.2.1, h.2.2.2.1⟩

/-- C9: every pass in which the read succeeds and the text holds `@` starts exactly
one reply, a call of `respondWithError` or of `respondWithSuccess` with some text,
and hands the page driver exactly one typing run, made of typing that text and then
clicking send. This holds whatever the model, the JSON decoding, the completeness
test and the store answer. -/
theorem C9_exactly_one_reply_per_mention (w : World EventDetails)
    (claudeAPIKey text : GoString) (hw : w.readText = .ok text) (hat : '@' ∈ text) :
    ((loopBody w claudeAPIKey).1.filter Event.isReply).length = 1 ∧
    ∃ message : GoString,
      ((loopBody w claudeAPIKey).1.filter Event.isReply = [.respondWithError message] ∨
       (loopBody w claudeAPIKey).1.filter Event.isReply = [.respondWithSuccess message]) ∧
      (loopBody w claudeAPIKey).1.filter Event.isTyping =
        [.Run [.SendKeys inputSelector message, .Click sendSelector]] := by
  rw [loopBody_of_mention w claudeAPIKey text hw hat]
  rcases parseEventDetails w (messageContent text) claudeAPIKey with ⟨ev, _ | err⟩
  · by_cases hm : detailsMissing ev = true
    · refine ⟨?_, missingDetailsText, Or.inl ?_, ?_⟩ <;>
        simp [hm, List.filter_append, parseEventDetailsTrace, Event.isReply, Event.isTyping,
          replyActions]
    · cases hs : w.storeEvent (extractUserIdentifier text) ev with
      | none =>
        refine ⟨?_, successText ev, Or.inr ?_, ?_⟩ <;>
          simp [hm, hs, List.filter_append, parseEventDetailsTrace, printDetails,
            Event.isReply, Event.isTyping, replyActions]
      | some e =>
        refine ⟨?_, notStoredText, Or.inl ?_, ?_⟩ <;>
          simp [hm, hs, List.filter_append, parseEventDetailsTrace, Event.isReply,
            Event.isTyping, replyActions]
  · refine ⟨?_, notUnderstoodText, Or.inl ?_, ?_⟩ <;>
      simp [List.filter_append, parseEventDetailsTrace, Event.isReply, Event.isTyping,
        replyActions]

/-- C9 at the text `@dinner` with a response that is not JSON. -/
theorem C9_exactly_one_reply_per_mention_witness :
    '@' ∈ "@dinner".toList ∧
    ((loopBody (worldOf "@dinner" "I cannot help" none) someKey).1.filter
      Event.isReply).length = 1 :=
  ⟨by decide,
    (C9_exactly_one_reply_per_mention (worldOf "@dinner" "I cannot help" none) someKey
      "@dinner".toList rfl (by decide)).1⟩

/-- C10: a pass in which reading the latest message fails only logs the failure: it
starts no reply, does not call `parseEventDetails`, sends nothing to the model, and
the loop goes on. Whatever passes came before and come after, the loop is still
running after them, and the events of the later passes are those these passes
produce when run on their own, as if the failed pass had not happened. -/
theorem C10_read_failure_skips_pass (claudeAPIKey err : GoString)
    (before after : List (World EventDetails)) (w : World EventDetails)
    (hw : w.readText = .error err) :
    loopBody w claudeAPIKey =
      ([.Sleep 5, .Run [.Text messageSelector],
        .Errorf ("Failed to retrieve last message: ".toList ++ err)], .next) ∧
    (loopBody w claudeAPIKey).1.filter Event.isReply = [] ∧
    (loopBody w claudeAPIKey).1.filter Event.isTyping = [] ∧
    (loopBody w claudeAPIKey).1.filter Event.isParseCall = [] ∧
    (loopBody w claudeAPIKey).1.filter Event.isModelCall = [] ∧
    listenForMentions claudeAPIKey (before ++ w :: after) =
      ((listenForMentions claudeAPIKey before).1 ++
        [.Sleep 5, .Run [.Text messageSelector],
          .Errorf ("Failed to retrieve last message: ".toList ++ err)] ++
        (listenForMentions claudeAPIKey after).1, .next) ∧
    listenForMentions claudeAPIKey (before ++ after) =
      ((listenForMentions claudeAPIKey before).1 ++
        (listenForMentions claudeAPIKey after).1, .next) := by
  have hb : loopBody w claudeAPIKey =
      ([.Sleep 5, .Run [.Text messageSelector],
        .Errorf ("Failed to retrieve last message: ".toList ++ err)], .next) := by
    simp only [loopBody, hw]
    rfl
  refine ⟨hb, ?_, ?_, ?_, ?_, ?_, ?_⟩
  · rw [hb]; rfl
  · rw [hb]; rfl
  · rw [hb]; rfl
  · rw [hb]; rfl
  · simp [listenForMentions_eq, hb]
  · simp [listenForMentions_eq]

/-- C10 with a failed read between a pass without trigger and a pass with the
complete record: the loop is still running and the last pass replies with the
confirmation. -/
theorem C10_read_failure_skips_pass_witness :
    worldReadFails.readText = .error "context deadline exceeded".toList ∧
    (listenForMentions someKey
      ([worldOf "hello" samResponse none] ++
        worldReadFails :: [worldOf "@party" samResponse none])).2 = .next ∧
    (listenForMentions someKey
      ([worldOf "hello" samResponse none] ++
        worldReadFails :: [worldOf "@party" samResponse none])).1.filter Event.isReply =
      [.respondWithSuccess (successText samEvent)] := by
  have h := C10_read_failure_skips_pass someKey "context deadline exceeded".toList
    [worldOf "hello" samResponse none] [worldOf "@party" samResponse none] worldReadFails rfl
  refine ⟨rfl, ?_, ?_⟩
  · rw [h.2.2.2.2.2.1]
  · rw [h.2.2.2.2.2.1]
    decide

end Mattbot
